import Mathlib

/-!
Verification of the egui_timeline core algorithms.

The Rust source is shallowly embedded: `f32` values are modelled as exact
rationals (`ℚ`), `u16`/`u32`/`usize` as `ℕ`, host trait objects as structures
of functions, and the unbounded loops of `Steps::next`, `paint_grid` and the
ruler as fuel-indexed recursions (`none` = the loop has not finished within
the given fuel).  One place where f32 and ℚ differ matters: dividing a
positive f32 by zero yields `+inf`; we model such division as `Option ℚ` with
`none` standing for the infinite result, so comparisons against it keep the
float semantics.
-/

namespace EguiTimeline

/-- Minimum gap between step lines in points (types.rs, MIN_STEP_GAP). -/
def MIN_STEP_GAP : ℚ := 4

/-- Musical time signature (types.rs, TimeSig); both fields are u16. -/
structure TimeSig where
  top : ℕ
  bottom : ℕ
deriving Repr, DecidableEq

/-- Tick range of a bar; `stop` models the Rust `Range::end` field (a Lean keyword). -/
structure TickRange where
  start : ℚ
  stop : ℚ
deriving Repr, DecidableEq

/-- A musical bar (types.rs, Bar). -/
structure Bar where
  tick_range : TickRange
  time_sig : TimeSig
deriving Repr, DecidableEq

/-- Host trait `MusicalInfo` (ruler.rs): the capabilities the widget reads. -/
structure MusicalInfoModel where
  ticks_per_beat : ℕ
  ticks_per_point : ℚ
  bar_at_ticks : ℚ → Bar
  timeline_start : Option ℚ

/-- Division of f32 values where the divisor may be zero: `none` models the
infinite quotient that f32 produces for a positive numerator over `0.0`. -/
def qdivF (a b : ℚ) : Option ℚ :=
  if b = 0 then none else some (a / b)

/-- Comparison `m <= x` where `x` may be the infinite quotient. -/
def fGE (x : Option ℚ) (m : ℚ) : Bool :=
  match x with
  | none => true
  | some q => m ≤ q

/-- Comparison `x <= m` where `x` may be the infinite quotient. -/
def fLE (x : Option ℚ) (m : ℚ) : Bool :=
  match x with
  | none => false
  | some q => q ≤ m

/-- The subdivision-doubling loop of `Steps::next` (ruler.rs lines 234-242):
keep doubling `beat_subdivs` while the halved step stays strictly above
`min_step_ticks`.  `beat_subdivs` is a u16 (it comes from
`time_sig.bottom / 4` with `bottom : u16`), so the doubling wraps modulo
2^16 — release semantics of `beat_subdivs * 2` (debug builds panic at the
same point).  Fuel-indexed; `none` means the loop did not exit within
`fuel` iterations (the Rust loop would still be running). -/
def subdivLoopF (tpb min_step_ticks : ℚ) : ℕ → ℕ → Option ℚ → Option (ℕ × Option ℚ)
  | 0, _, _ => none
  | fuel + 1, beat_subdivs, step_ticks =>
    let new_beat_subdivs := beat_subdivs * 2 % 65536
    let new_step_ticks := qdivF tpb (new_beat_subdivs : ℚ)
    if fLE new_step_ticks min_step_ticks then some (beat_subdivs, step_ticks)
    else subdivLoopF tpb min_step_ticks fuel new_beat_subdivs new_step_ticks

/-- Step-interval selection performed at the first step of each bar
(ruler.rs lines 229-245).  Returns the selected `step_ticks`, or `none` if
the doubling loop does not terminate within `fuel`. -/
def barStepTicks (tpb min_step_ticks : ℚ) (bar : Bar) (fuel : ℕ) : Option ℚ :=
  let beat_subdivs : ℕ := bar.time_sig.bottom / 4
  let step_ticks := qdivF tpb (beat_subdivs : ℚ)
  if fGE step_ticks min_step_ticks then
    match subdivLoopF tpb min_step_ticks fuel beat_subdivs step_ticks with
    | none => none
    | some (_, none) => none
    | some (_, some st) => some st
  else
    some (bar.tick_range.stop - bar.tick_range.start)

/-- A single emitted step (ruler.rs, Step). -/
structure Step where
  index_in_bar : ℕ
  ticks : ℚ
  x : ℚ
deriving Repr, DecidableEq

/-- Iterator state (ruler.rs, Steps). -/
structure Steps where
  ticks_per_beat : ℚ
  ticks_per_point : ℚ
  visible_ticks : ℚ
  min_step_ticks : ℚ
  index_in_bar : ℕ
  step_ticks : ℚ
  bar : Bar
  ticks : ℚ
deriving Repr, DecidableEq

/-- `Steps::new` (ruler.rs lines 208-223). -/
def Steps.new (api : MusicalInfoModel) (visible_len min_step_gap : ℚ) : Steps :=
  let ticks_per_point := api.ticks_per_point
  { ticks_per_beat := (api.ticks_per_beat : ℚ)
    ticks_per_point := ticks_per_point
    visible_ticks := ticks_per_point * visible_len
    min_step_ticks := ticks_per_point * min_step_gap
    index_in_bar := 0
    step_ticks := 0
    bar := api.bar_at_ticks 0
    ticks := 0 }

/-- One entry of `Steps::next` (ruler.rs lines 226-273).  Each unit of fuel
pays for one iteration of the combined `'bars`/`'ticks` loop; `none` means
the call has not returned within the given fuel.  The `index_in_bar == 0`
re-selection of the step interval happens at loop entry, exactly as in the
source. -/
def Steps.nextF (api : MusicalInfoModel) : ℕ → Steps → Option (Option Step × Steps)
  | 0, _ => none
  | fuel + 1, s =>
    let recomputed : Option Steps :=
      if s.index_in_bar = 0 then
        match barStepTicks s.ticks_per_beat s.min_step_ticks s.bar (fuel + 1) with
        | none => none
        | some st => some { s with ticks := s.bar.tick_range.start, step_ticks := st }
      else some s
    match recomputed with
    | none => none
    | some s1 =>
      if s1.visible_ticks < s1.ticks then some (none, s1)
      else if s1.bar.tick_range.stop ≤ s1.ticks then
        Steps.nextF api fuel
          { s1 with index_in_bar := 0
                    bar := api.bar_at_ticks (s1.bar.tick_range.stop + 1/2) }
      else
        let index_in_bar := s1.index_in_bar
        let ticks := s1.ticks
        let s2 := { s1 with index_in_bar := index_in_bar + 1
                            ticks := ticks + s1.step_ticks }
        if ticks < 0 then Steps.nextF api fuel s2
        else some (some { index_in_bar := index_in_bar, ticks := ticks
                          x := ticks / s1.ticks_per_point }, s2)

/-! ## Demo host application state (main.rs, TimelineApp)

Presentation-only fields (track name map, pending-add flag, panel
visibility, selected-track highlight) are omitted: no claim reads them and
no modelled operation writes them.  The `HashMap<String,(f32,f32)>` of
selections is modelled as an association list whose insert replaces any
existing binding for the key. -/

/-- Association-list insert with HashMap replace semantics. -/
def selInsert (m : List (String × ℚ × ℚ)) (k : String) (s e : ℚ) :
    List (String × ℚ × ℚ) :=
  (k, s, e) :: m.filter (fun p => p.1 ≠ k)

/-- Association-list lookup (HashMap get). -/
def selLookup (m : List (String × ℚ × ℚ)) (k : String) : Option (ℚ × ℚ) :=
  (m.find? (fun p => p.1 == k)).map (fun p => p.2)

/-- The demo application state (main.rs, TimelineApp). -/
structure TimelineApp where
  timeline_start : ℚ
  zoom_level : ℚ
  playhead_pos : ℚ
  ticks_per_beat : ℕ
  track_selections : List (String × ℚ × ℚ)
  drag_start_tick : Option (String × ℚ)
  is_playing : Bool
  play_start_time : Option ℚ
  play_start_playhead_pos : ℚ
deriving Repr

/-- Total number of bars, 0-500 inclusive (main.rs, TOTAL_BARS). -/
def TOTAL_BARS : ℕ := 501

/-- main.rs `ticks_per_bar`: 4/4 time signature. -/
def TimelineApp.ticks_per_bar (app : TimelineApp) : ℚ :=
  (app.ticks_per_beat : ℚ) * 4

/-- main.rs `ticks_per_second`: 1 bar = 1 second. -/
def TimelineApp.ticks_per_second (app : TimelineApp) : ℚ :=
  app.ticks_per_bar

/-- main.rs `max_playhead_pos`: end of bar 500. -/
def TimelineApp.max_playhead_pos (app : TimelineApp) : ℚ :=
  (TOTAL_BARS : ℚ) * app.ticks_per_bar

/-- `ticks_per_point` of the demo host (main.rs, both the MusicalInfo and the
TrackSelectionApi implementations). -/
def TimelineApp.ticks_per_point (app : TimelineApp) : ℚ :=
  ((app.ticks_per_beat : ℚ) / 16) * app.zoom_level

/-- Truncation toward zero, as Rust `f32` casts and `%` use. -/
def truncQ (q : ℚ) : ℤ :=
  if 0 ≤ q then ⌊q⌋ else ⌈q⌉

/-- Rust `x % 1.0` (remainder with the dividend's sign). -/
def rem1 (q : ℚ) : ℚ :=
  q - (truncQ q : ℚ)

/-- main.rs `bar_at_ticks` (lines 218-235): the bar number is the floored
quotient cast to u32 (a saturating cast, so negatives become 0) and clamped
to 0-500. -/
def TimelineApp.bar_at_ticks (app : TimelineApp) (tick : ℚ) : Bar :=
  let absolute_tick := app.timeline_start + tick
  let ticks_per_bar := app.ticks_per_bar
  let bar_number : ℕ := min (Int.toNat ⌊absolute_tick / ticks_per_bar⌋) (TOTAL_BARS - 1)
  let bar_start := (bar_number : ℚ) * ticks_per_bar
  let bar_end := bar_start + ticks_per_bar
  { tick_range := { start := bar_start - app.timeline_start
                    stop := bar_end - app.timeline_start }
    time_sig := { top := 4, bottom := 4 } }

/-- The demo host packaged as the `MusicalInfo` capability. -/
def TimelineApp.musicalInfo (app : TimelineApp) : MusicalInfoModel :=
  { ticks_per_beat := app.ticks_per_beat
    ticks_per_point := app.ticks_per_point
    bar_at_ticks := app.bar_at_ticks
    timeline_start := some app.timeline_start }

/-! ### TrackSelectionApi implementation (main.rs lines 279-329) -/

/-- main.rs `start_selection_drag`. -/
def TimelineApp.start_selection_drag (app : TimelineApp) (track_id : String)
    (start_tick : ℚ) : TimelineApp :=
  { app with drag_start_tick := some (track_id, start_tick) }

/-- main.rs `update_selection_drag`: live selection of the dragged range. -/
def TimelineApp.update_selection_drag (app : TimelineApp) (track_id : String)
    (end_tick : ℚ) : TimelineApp :=
  match app.drag_start_tick with
  | some (drag_track_id, start_tick) =>
    if drag_track_id = track_id then
      { app with track_selections :=
          (selInsert app.track_selections track_id
            (min start_tick end_tick) (max start_tick end_tick)) }
    else app
  | none => app

/-- main.rs `get_drag_start`. -/
def TimelineApp.get_drag_start (app : TimelineApp) : Option (String × ℚ) :=
  app.drag_start_tick

/-- main.rs `end_selection_drag`. -/
def TimelineApp.end_selection_drag (app : TimelineApp) : TimelineApp :=
  { app with drag_start_tick := none }

/-- main.rs `set_selection`. -/
def TimelineApp.set_selection (app : TimelineApp) (track_id : String)
    (start_tick end_tick : ℚ) : TimelineApp :=
  { app with track_selections :=
      selInsert app.track_selections track_id start_tick end_tick }

/-- main.rs `clear_all_selections`. -/
def TimelineApp.clear_all_selections (app : TimelineApp) : TimelineApp :=
  { app with track_selections := [] }

/-- main.rs `get_selection`. -/
def TimelineApp.get_selection (app : TimelineApp) (track_id : String) :
    Option (ℚ × ℚ) :=
  selLookup app.track_selections track_id

/-- main.rs `set_playhead_ticks` (the `Interaction` impl, lines 265-276):
moves the playhead and, when playing, resets the playback epoch. -/
def TimelineApp.set_playhead_ticks (app : TimelineApp) (ticks : ℚ) : TimelineApp :=
  let new_pos := app.timeline_start + ticks
  let app := { app with playhead_pos := new_pos }
  if app.is_playing then
    { app with play_start_playhead_pos := new_pos, play_start_time := none }
  else app

/-- main.rs `zoom` (lines 204-206). -/
def TimelineApp.zoom (app : TimelineApp) (y_delta : ℚ) : TimelineApp :=
  { app with zoom_level := min (max (app.zoom_level * (1 + y_delta / 100)) (1/10)) 3 }

/-- main.rs `shift_timeline_start` (lines 198-202): plain addition, clamping
is done by the interaction handler. -/
def TimelineApp.shift_timeline_start (app : TimelineApp) (ticks : ℚ) : TimelineApp :=
  { app with timeline_start := app.timeline_start + ticks }

/-- main.rs `update_playhead_position` (lines 117-160); `current_time` is the
egui wall-clock time `ctx.input(|i| i.time)`. -/
def TimelineApp.update_playhead_position (app : TimelineApp) (current_time : ℚ) :
    TimelineApp :=
  if app.is_playing then
    let app :=
      match app.play_start_time with
      | none => { app with play_start_time := some current_time
                           play_start_playhead_pos := app.playhead_pos }
      | some _ => app
    match app.play_start_time with
    | some start_time =>
      let elapsed_seconds := current_time - start_time
      let new_pos := app.play_start_playhead_pos + elapsed_seconds * app.ticks_per_second
      let max_pos := app.max_playhead_pos
      let clamped_pos := min new_pos max_pos
      let app := { app with playhead_pos := clamped_pos }
      if max_pos ≤ clamped_pos then
        { app with is_playing := false, play_start_time := none }
      else app
    | none => app
  else
    { app with play_start_time := none }

/-! ## Interaction handlers (interaction.rs)

Pointer state is what `ui.input` reports for one frame; rectangles are the
per-frame layout rectangles.  The handlers mutate only the demo host
(`TimelineApp`), through the same API calls the Rust code makes. -/

/-- A 2D point / vector (egui `Pos2` / `Vec2`). -/
structure Pos where
  x : ℚ
  y : ℚ
deriving Repr, DecidableEq

/-- A rectangle (egui `Rect`); `contains` is inclusive on all edges. -/
structure Rect where
  min : Pos
  max : Pos
deriving Repr, DecidableEq

/-- egui `Rect::contains`. -/
def Rect.contains (r : Rect) (p : Pos) : Bool :=
  r.min.x ≤ p.x && p.x ≤ r.max.x && r.min.y ≤ p.y && p.y ≤ r.max.y

/-- egui `Rect::width`. -/
def Rect.width (r : Rect) : ℚ :=
  r.max.x - r.min.x

/-- The pointer-related frame input read by `handle_track_interaction`. -/
structure PointerInput where
  primary_pressed : Bool
  primary_released : Bool
  primary_down : Bool
  secondary_pressed : Bool
  interact_pos : Option Pos
deriving Repr, DecidableEq

/-- The selection block of `handle_track_interaction` (interaction.rs lines
152-196), with the frame-derived values passed in explicitly. -/
def handle_selection (track_id : String)
    (pointer_over_track pointer_over_timeline is_dragging_this_track : Bool)
    (inp : PointerInput) (tick visible_ticks : ℚ) (app : TimelineApp) :
    TimelineApp :=
  if (inp.secondary_pressed && pointer_over_timeline) = true then
    app.clear_all_selections
  else if (inp.primary_pressed && pointer_over_track && !inp.secondary_pressed) = true then
    let app := app.clear_all_selections
    let timeline_start := app.timeline_start
    let absolute_start_tick := timeline_start + tick
    app.start_selection_drag track_id absolute_start_tick
  else if (inp.primary_down && is_dragging_this_track && !inp.secondary_pressed) = true then
    let timeline_start := app.timeline_start
    let clamped_tick := min (max tick 0) visible_ticks
    let absolute_end_tick := timeline_start + clamped_tick
    app.update_selection_drag track_id absolute_end_tick
  else if inp.primary_released then
    if is_dragging_this_track = true then
      match app.get_drag_start with
      | some (_, absolute_start_tick) =>
        let timeline_start := app.timeline_start
        let clamped_tick :=
          if pointer_over_timeline = true then tick
          else min (max (absolute_start_tick - timeline_start) 0) visible_ticks
        let absolute_end_tick := timeline_start + min (max clamped_tick 0) visible_ticks
        let drag_distance := |absolute_end_tick - absolute_start_tick|
        let app :=
          if drag_distance < 1 then app.clear_all_selections
          else
            (app.clear_all_selections).set_selection track_id
              (min absolute_start_tick absolute_end_tick)
              (max absolute_start_tick absolute_end_tick)
        app.end_selection_drag
      | none => app
    else app
  else app

/-- interaction.rs `handle_track_interaction` (lines 96-198), instantiated with
the demo host for both optional capabilities; `has_playhead` and
`has_selection` model whether the respective `Option<&dyn ...>` is `Some`.
The playhead block runs first, then the selection block. -/
def handle_track_interaction (track_rect timeline_rect : Rect) (track_id : String)
    (has_playhead has_selection : Bool) (inp : PointerInput)
    (app : TimelineApp) : TimelineApp :=
  if has_playhead = false && has_selection = false then app
  else
    match inp.interact_pos with
    | none => app
    | some pt =>
      let timeline_w := timeline_rect.width
      let ticks_per_point := app.ticks_per_point
      let visible_ticks := ticks_per_point * timeline_w
      let pointer_over_track := track_rect.contains pt
      let pointer_over_timeline := timeline_rect.contains pt
      let is_dragging_this_track :=
        if has_selection then
          match app.get_drag_start with
          | some (drag_track_id, _) => drag_track_id = track_id
          | none => false
        else false
      let tick := max (((pt.x - timeline_rect.min.x) / timeline_w) * visible_ticks) 0
      let app :=
        if (has_playhead &&
            ((inp.primary_pressed && pointer_over_track) ||
             (inp.primary_down && pointer_over_track)) &&
            !inp.secondary_pressed) = true then
          app.set_playhead_ticks tick
        else app
      if has_selection then
        handle_selection track_id pointer_over_track pointer_over_timeline
          is_dragging_this_track inp tick visible_ticks app
      else app

/-- The scroll-related frame input read by `handle_scroll_and_zoom`. -/
structure ScrollInput where
  pointer_in_rect : Bool
  ctrl : Bool
  shift : Bool
  smooth_scroll_delta : Pos
  raw_scroll_delta : Pos
deriving Repr, DecidableEq

/-- interaction.rs `handle_scroll_and_zoom` (lines 4-63), instantiated with the
demo host.  Returns the new state together with the delta passed to
`shift_timeline_start` (`none` when the mutator is not called). -/
def handle_scroll_and_zoom (timeline_rect : Rect) (inp : ScrollInput)
    (app : TimelineApp) : TimelineApp × Option ℚ :=
  if inp.pointer_in_rect then
    let zero : Pos := { x := 0, y := 0 }
    let delta :=
      if inp.ctrl then
        if inp.raw_scroll_delta ≠ zero then inp.raw_scroll_delta
        else inp.smooth_scroll_delta
      else
        if inp.smooth_scroll_delta ≠ zero then inp.smooth_scroll_delta
        else inp.raw_scroll_delta
    if inp.ctrl then
      if delta.x ≠ 0 ∨ delta.y ≠ 0 then (app.zoom (delta.y - delta.x), none)
      else (app, none)
    else if inp.shift ∨ delta.x ≠ 0 then
      if delta.x ≠ 0 then
        let ticks_per_point := app.ticks_per_point
        let timeline_width := timeline_rect.width
        let visible_ticks := ticks_per_point * timeline_width
        let ticks_per_bar := (app.ticks_per_beat : ℚ) * 4
        let total_ticks := 501 * ticks_per_bar
        let max_timeline_start := max (total_ticks - visible_ticks) 0
        let shift_amount := delta.x * ticks_per_point
        let current_start := app.timeline_start
        let new_start0 := current_start + shift_amount
        let new_start1 := max new_start0 0
        let new_start :=
          if max_timeline_start < new_start1 then max_timeline_start else new_start1
        if 1/1000 < |new_start - current_start| then
          (app.shift_timeline_start (new_start - current_start),
           some (new_start - current_start))
        else (app, none)
      else (app, none)
    else (app, none)
  else (app, none)

/-! ## Time-based grid and ruler mark loops (grid.rs `paint_grid`,
ruler.rs `musical` lines 100-177)

Both walk relative ticks in 0.1-second intervals and record which marks are
actually drawn; the result is the list of drawn `(x, is_whole_second)`
pairs.  Fuel truncates the walk (each unit pays for one 0.1-second line);
text labels and stroke colors are presentation and are not modelled. -/

/-- The grid-line loop of grid.rs `paint_grid` (lines 52-84): a line too close
to the previously drawn one is skipped before its whole-second status is even
computed.  `last_x = none` models the initial `f32::NEG_INFINITY`. -/
def gridLinesF (tpp tps tpl visible left ts : ℚ) :
    ℕ → ℚ → Option ℚ → List (ℚ × Bool)
  | 0, _, _ => []
  | fuel + 1, current, last_x =>
    if visible < current then []
    else
      let x := left + current / tpp
      let too_close :=
        match last_x with
        | none => false
        | some lx => decide (|x - lx| < MIN_STEP_GAP)
      if too_close then gridLinesF tpp tps tpl visible left ts fuel (current + tpl) last_x
      else
        let seconds := (ts + current) / tps
        let is_whole_second := decide (|rem1 seconds| < 1/1000)
        (x, is_whole_second) ::
          gridLinesF tpp tps tpl visible left ts fuel (current + tpl) (some x)

/-- The ruler-line loop of ruler.rs `musical` (lines 100-177): whole-second
lines are always drawn; other lines only when not too close to the previous
drawn one; `last_x` advances exactly when a line was drawn. -/
def rulerLinesF (tpp tps tpl visible left ts : ℚ) :
    ℕ → ℚ → Option ℚ → List (ℚ × Bool)
  | 0, _, _ => []
  | fuel + 1, current, last_x =>
    if visible < current then []
    else
      let x := left + current / tpp
      let seconds := (ts + current) / tps
      let is_whole_second := decide (|rem1 seconds| < 1/1000)
      let line_too_close :=
        match last_x with
        | none => false
        | some lx => decide (|x - lx| < MIN_STEP_GAP)
      let drawn := is_whole_second || !line_too_close
      let new_last := if drawn then some x else last_x
      let rest := rulerLinesF tpp tps tpl visible left ts fuel (current + tpl) new_last
      if drawn then (x, is_whole_second) :: rest else rest

/-- Derived quantities and first-line snap shared by grid.rs lines 19-50 and
ruler.rs lines 66-100, followed by the grid-line loop. -/
def paint_grid (info : MusicalInfoModel) (left visible_len : ℚ) (fuel : ℕ) :
    List (ℚ × Bool) :=
  let ticks_per_point := info.ticks_per_point
  let visible_ticks := ticks_per_point * visible_len
  let ticks_per_beat := (info.ticks_per_beat : ℚ)
  let ticks_per_bar := ticks_per_beat * 4
  let ticks_per_second := ticks_per_bar
  let ticks_per_line := ticks_per_second / 10
  let timeline_start := info.timeline_start.getD 0
  let absolute_start_seconds := timeline_start / ticks_per_second
  let first_line_seconds := ((⌊absolute_start_seconds * 10⌋ : ℤ) : ℚ) / 10
  let first_line_absolute_tick := first_line_seconds * ticks_per_second
  let first_line_tick_relative := first_line_absolute_tick - timeline_start
  gridLinesF ticks_per_point ticks_per_second ticks_per_line visible_ticks left
    timeline_start fuel first_line_tick_relative none

/-- The same derivation followed by the ruler-line loop of `musical`. -/
def musicalRulerLines (info : MusicalInfoModel) (left visible_len : ℚ) (fuel : ℕ) :
    List (ℚ × Bool) :=
  let ticks_per_point := info.ticks_per_point
  let visible_ticks := ticks_per_point * visible_len
  let ticks_per_beat := (info.ticks_per_beat : ℚ)
  let ticks_per_bar := ticks_per_beat * 4
  let ticks_per_second := ticks_per_bar
  let ticks_per_line := ticks_per_second / 10
  let timeline_start := info.timeline_start.getD 0
  let absolute_start_seconds := timeline_start / ticks_per_second
  let first_line_seconds := ((⌊absolute_start_seconds * 10⌋ : ℤ) : ℚ) / 10
  let first_line_absolute_tick := first_line_seconds * ticks_per_second
  let first_line_tick_relative := first_line_absolute_tick - timeline_start
  rulerLinesF ticks_per_point ticks_per_second ticks_per_line visible_ticks left
    timeline_start fuel first_line_tick_relative none

/-! ## Claims -/

/-- Claim C7: starting playback with the playhead at absolute tick `T0` (first
frame initializes the playback epoch at wall-clock `t0`), advancing the
wall clock by `ds` seconds yields playhead `T0 + ds * ticks_per_second`
clamped to the configured maximum, and playback auto-stops exactly when that
maximum is reached.  The model uses exact rational arithmetic, so the
"within floating-point tolerance" allowance is met exactly. -/
theorem claim_C7_playback_advancement (app : TimelineApp) (t0 ds T0 : ℚ)
    (hplay : app.is_playing = true)
    (hstart : app.play_start_time = none)
    (hpos : app.playhead_pos = T0)
    (hT0 : T0 < app.max_playhead_pos)
    (hds : 0 ≤ ds) :
    ((app.update_playhead_position t0).update_playhead_position (t0 + ds)).playhead_pos
        = min (T0 + ds * app.ticks_per_second) app.max_playhead_pos ∧
    (((app.update_playhead_position t0).update_playhead_position (t0 + ds)).is_playing = false
        ↔ app.max_playhead_pos ≤ T0 + ds * app.ticks_per_second) := by
  have h1 : app.update_playhead_position t0 =
      { app with play_start_time := some t0, play_start_playhead_pos := T0,
                 playhead_pos := T0 } := by
    simp only [TimelineApp.update_playhead_position, hplay, hstart, hpos, if_true]
    simp only [TimelineApp.max_playhead_pos, TimelineApp.ticks_per_bar,
      TimelineApp.ticks_per_second]
    have hmin : min (T0 + (t0 - t0) * ((app.ticks_per_beat : ℚ) * 4))
        ((TOTAL_BARS : ℚ) * ((app.ticks_per_beat : ℚ) * 4)) = T0 := by
      rw [sub_self, zero_mul, add_zero]
      exact min_eq_left hT0.le
    rw [hmin]
    rw [if_neg]
    · intro hle
      have : app.max_playhead_pos ≤ T0 := by
        simpa [TimelineApp.max_playhead_pos, TimelineApp.ticks_per_bar] using hle
      exact absurd hT0 (not_lt.mpr this)
  rw [h1]
  simp only [TimelineApp.update_playhead_position, hplay, if_true]
  simp only [TimelineApp.max_playhead_pos, TimelineApp.ticks_per_bar,
    TimelineApp.ticks_per_second]
  have helapsed : t0 + ds - t0 = ds := by ring
  rw [helapsed]
  constructor
  · split
    · rfl
    · rfl
  · have hstop : (TOTAL_BARS : ℚ) * ((app.ticks_per_beat : ℚ) * 4) ≤
        min (T0 + ds * ((app.ticks_per_beat : ℚ) * 4))
          ((TOTAL_BARS : ℚ) * ((app.ticks_per_beat : ℚ) * 4)) ↔
        (TOTAL_BARS : ℚ) * ((app.ticks_per_beat : ℚ) * 4) ≤
          T0 + ds * ((app.ticks_per_beat : ℚ) * 4) := by
      rw [le_min_iff]
      exact and_iff_left le_rfl
    split
    · next h => simpa [hstop] using h
    · next h =>
      simp only [hplay]
      rw [hstop] at h
      simp [h]

/-- The demo application's initial state (main.rs, `Default for TimelineApp`). -/
def demoApp : TimelineApp :=
  { timeline_start := 0, zoom_level := 1, playhead_pos := 0, ticks_per_beat := 960
    track_selections := [], drag_start_tick := none, is_playing := false
    play_start_time := none, play_start_playhead_pos := 0 }

/-- A playing demo app with the playhead at tick 1000. -/
def appC7 : TimelineApp := { demoApp with is_playing := true, playhead_pos := 1000 }

/-- Witness for C7 at a concrete input: play from tick 1000, advance 2 seconds. -/
theorem claim_C7_playback_advancement_witness :
    ((appC7.update_playhead_position 5).update_playhead_position (5 + 2)).playhead_pos
        = min (1000 + 2 * appC7.ticks_per_second) appC7.max_playhead_pos ∧
    (((appC7.update_playhead_position 5).update_playhead_position (5 + 2)).is_playing = false
        ↔ appC7.max_playhead_pos ≤ 1000 + 2 * appC7.ticks_per_second) :=
  claim_C7_playback_advancement appC7 5 2 1000 rfl rfl rfl
    (by norm_num [appC7, demoApp, TimelineApp.max_playhead_pos,
      TimelineApp.ticks_per_bar, TOTAL_BARS]) (by norm_num)

/-! ### Field-preservation lemmas for the host operations -/

@[simp] lemma set_playhead_track_selections (app : TimelineApp) (t : ℚ) :
    (app.set_playhead_ticks t).track_selections = app.track_selections := by
  simp only [TimelineApp.set_playhead_ticks]
  split <;> rfl

@[simp] lemma set_playhead_drag_start (app : TimelineApp) (t : ℚ) :
    (app.set_playhead_ticks t).drag_start_tick = app.drag_start_tick := by
  simp only [TimelineApp.set_playhead_ticks]
  split <;> rfl

@[simp] lemma set_playhead_timeline_start (app : TimelineApp) (t : ℚ) :
    (app.set_playhead_ticks t).timeline_start = app.timeline_start := by
  simp only [TimelineApp.set_playhead_ticks]
  split <;> rfl

@[simp] lemma set_playhead_ticks_per_point (app : TimelineApp) (t : ℚ) :
    (app.set_playhead_ticks t).ticks_per_point = app.ticks_per_point := by
  simp only [TimelineApp.set_playhead_ticks, TimelineApp.ticks_per_point]
  split <;> rfl

@[simp] lemma clear_all_track_selections (app : TimelineApp) :
    (app.clear_all_selections).track_selections = [] := rfl

@[simp] lemma clear_all_drag_start (app : TimelineApp) :
    (app.clear_all_selections).drag_start_tick = app.drag_start_tick := rfl

@[simp] lemma clear_all_timeline_start (app : TimelineApp) :
    (app.clear_all_selections).timeline_start = app.timeline_start := rfl

@[simp] lemma clear_all_ticks_per_point (app : TimelineApp) :
    (app.clear_all_selections).ticks_per_point = app.ticks_per_point := rfl

@[simp] lemma start_drag_track_selections (app : TimelineApp) (tid : String) (t : ℚ) :
    (app.start_selection_drag tid t).track_selections = app.track_selections := rfl

@[simp] lemma start_drag_drag_start (app : TimelineApp) (tid : String) (t : ℚ) :
    (app.start_selection_drag tid t).drag_start_tick = some (tid, t) := rfl

@[simp] lemma start_drag_timeline_start (app : TimelineApp) (tid : String) (t : ℚ) :
    (app.start_selection_drag tid t).timeline_start = app.timeline_start := rfl

@[simp] lemma start_drag_ticks_per_point (app : TimelineApp) (tid : String) (t : ℚ) :
    (app.start_selection_drag tid t).ticks_per_point = app.ticks_per_point := rfl

@[simp] lemma end_drag_track_selections (app : TimelineApp) :
    (app.end_selection_drag).track_selections = app.track_selections := rfl

@[simp] lemma end_drag_drag_start (app : TimelineApp) :
    (app.end_selection_drag).drag_start_tick = none := rfl

@[simp] lemma set_selection_track_selections (app : TimelineApp) (tid : String) (s e : ℚ) :
    (app.set_selection tid s e).track_selections =
      selInsert app.track_selections tid s e := rfl

@[simp] lemma set_selection_drag_start (app : TimelineApp) (tid : String) (s e : ℚ) :
    (app.set_selection tid s e).drag_start_tick = app.drag_start_tick := rfl

/-- The absolute start tick stored by the press branch of
`handle_track_interaction` (interaction.rs lines 157-163). -/
def press_start_abs (timeline_rect : Rect) (app : TimelineApp) (p : Pos) : ℚ :=
  app.timeline_start +
    max (((p.x - timeline_rect.min.x) / timeline_rect.width) *
      (app.ticks_per_point * timeline_rect.width)) 0

/-- The absolute end tick computed by the release branch of
`handle_track_interaction` (interaction.rs lines 174-181), for a drag that
started at absolute tick `sa`. -/
def release_end_abs (timeline_rect : Rect) (app : TimelineApp) (p : Pos) (sa : ℚ) : ℚ :=
  let w := timeline_rect.width
  let visible_ticks := app.ticks_per_point * w
  let tick := max (((p.x - timeline_rect.min.x) / w) * visible_ticks) 0
  let clamped_tick :=
    if timeline_rect.contains p then tick
    else min (max (sa - app.timeline_start) 0) visible_ticks
  app.timeline_start + min (max clamped_tick 0) visible_ticks

/-- Characterization of a primary-press frame on a track: all selections are
cleared and a drag is started at the pointer's absolute tick (the playhead is
also moved when the playhead capability is present). -/
lemma handle_press_eq (track_rect timeline_rect : Rect) (track_id : String)
    (hp : Bool) (app : TimelineApp) (p1 : Pos)
    (hover1 : track_rect.contains p1 = true) :
    handle_track_interaction track_rect timeline_rect track_id hp true
      ⟨true, false, true, false, some p1⟩ app =
    TimelineApp.start_selection_drag
      (TimelineApp.clear_all_selections
        (if hp = true then
          app.set_playhead_ticks
            (max (((p1.x - timeline_rect.min.x) / timeline_rect.width) *
              (app.ticks_per_point * timeline_rect.width)) 0)
         else app))
      track_id (press_start_abs timeline_rect app p1) := by
  unfold handle_track_interaction handle_selection press_start_abs
  simp only [hover1, Bool.and_true, Bool.true_and, Bool.and_false, Bool.false_and,
    Bool.and_self, Bool.not_false, Bool.or_self, Bool.false_or, Bool.or_false]
  cases hp with
  | false =>
    simp [TimelineApp.clear_all_selections, TimelineApp.start_selection_drag]
  | true =>
    simp [TimelineApp.clear_all_selections, TimelineApp.start_selection_drag]

/-- Characterization of a primary-release frame for the track owning the drag
(interaction.rs lines 171-195): the drag always terminates, committing a
selection when the distance is at least one tick and discarding otherwise. -/
lemma handle_release_eq (track_rect timeline_rect : Rect) (track_id : String)
    (hp : Bool) (app : TimelineApp) (p2 : Pos) (sa : ℚ)
    (hdrag : app.drag_start_tick = some (track_id, sa)) :
    handle_track_interaction track_rect timeline_rect track_id hp true
      ⟨false, true, false, false, some p2⟩ app =
    TimelineApp.end_selection_drag
      (if |release_end_abs timeline_rect app p2 sa - sa| < 1 then
        app.clear_all_selections
       else
        (app.clear_all_selections).set_selection track_id
          (min sa (release_end_abs timeline_rect app p2 sa))
          (max sa (release_end_abs timeline_rect app p2 sa))) := by
  unfold handle_track_interaction handle_selection release_end_abs
  simp [TimelineApp.get_drag_start, hdrag, abs_sub_comm sa]

/-- Claim C4: for a press frame on a track followed by a release frame, if the
absolute distance between the drag start tick and the final end tick is below
1.0 tick all selections are cleared and none is created, and otherwise exactly
one selection `(track, min, max)` is committed after clearing all prior
selections; the drag state returns to Idle (`none`) in both cases. -/
theorem claim_C4_click_vs_drag (track_rect timeline_rect : Rect) (track_id : String)
    (hp : Bool) (app : TimelineApp) (p1 p2 : Pos)
    (hover1 : track_rect.contains p1 = true) :
    (|release_end_abs timeline_rect app p2 (press_start_abs timeline_rect app p1) -
        press_start_abs timeline_rect app p1| < 1 →
      (handle_track_interaction track_rect timeline_rect track_id hp true
          ⟨false, true, false, false, some p2⟩
          (handle_track_interaction track_rect timeline_rect track_id hp true
            ⟨true, false, true, false, some p1⟩ app)).track_selections = [] ∧
      (handle_track_interaction track_rect timeline_rect track_id hp true
          ⟨false, true, false, false, some p2⟩
          (handle_track_interaction track_rect timeline_rect track_id hp true
            ⟨true, false, true, false, some p1⟩ app)).drag_start_tick = none) ∧
    (1 ≤ |release_end_abs timeline_rect app p2 (press_start_abs timeline_rect app p1) -
        press_start_abs timeline_rect app p1| →
      (handle_track_interaction track_rect timeline_rect track_id hp true
          ⟨false, true, false, false, some p2⟩
          (handle_track_interaction track_rect timeline_rect track_id hp true
            ⟨true, false, true, false, some p1⟩ app)).track_selections =
        [(track_id,
          min (press_start_abs timeline_rect app p1)
            (release_end_abs timeline_rect app p2 (press_start_abs timeline_rect app p1)),
          max (press_start_abs timeline_rect app p1)
            (release_end_abs timeline_rect app p2 (press_start_abs timeline_rect app p1)))] ∧
      (handle_track_interaction track_rect timeline_rect track_id hp true
          ⟨false, true, false, false, some p2⟩
          (handle_track_interaction track_rect timeline_rect track_id hp true
            ⟨true, false, true, false, some p1⟩ app)).drag_start_tick = none) := by
  rw [handle_press_eq track_rect timeline_rect track_id hp app p1 hover1]
  have happ1drag :
      (TimelineApp.start_selection_drag
        (TimelineApp.clear_all_selections
          (if hp = true then
            app.set_playhead_ticks
              (max (((p1.x - timeline_rect.min.x) / timeline_rect.width) *
                (app.ticks_per_point * timeline_rect.width)) 0)
           else app))
        track_id (press_start_abs timeline_rect app p1)).drag_start_tick =
      some (track_id, press_start_abs timeline_rect app p1) := by
    simp [TimelineApp.start_selection_drag]
  rw [handle_release_eq track_rect timeline_rect track_id hp _ p2
      (press_start_abs timeline_rect app p1) happ1drag]
  have hsame : release_end_abs timeline_rect
      (TimelineApp.start_selection_drag
        (TimelineApp.clear_all_selections
          (if hp = true then
            app.set_playhead_ticks
              (max (((p1.x - timeline_rect.min.x) / timeline_rect.width) *
                (app.ticks_per_point * timeline_rect.width)) 0)
           else app))
        track_id (press_start_abs timeline_rect app p1)) p2
      (press_start_abs timeline_rect app p1) =
      release_end_abs timeline_rect app p2 (press_start_abs timeline_rect app p1) := by
    cases hp <;> simp [release_end_abs]
  rw [hsame]
  constructor
  · intro hlt
    rw [if_pos hlt]
    simp [TimelineApp.end_selection_drag, TimelineApp.clear_all_selections,
      TimelineApp.start_selection_drag]
  · intro hge
    rw [if_neg (not_lt.mpr hge)]
    simp [TimelineApp.end_selection_drag, TimelineApp.clear_all_selections,
      TimelineApp.start_selection_drag, TimelineApp.set_selection, selInsert,
      min_comm, max_comm]

/-- A 100x100 frame rectangle at the origin, used by concrete scenarios. -/
def rectW : Rect := ⟨⟨0, 0⟩, ⟨100, 100⟩⟩

/-- Witness for C4 at a concrete input: press at x=10 (tick 600) and release at
x=20 (tick 1200) on the default demo app; the distance is 600 ≥ 1, so exactly
one selection is committed and the drag state returns to Idle. -/
theorem claim_C4_click_vs_drag_witness :
    (handle_track_interaction rectW rectW "track1" false true
        ⟨false, true, false, false, some ⟨20, 5⟩⟩
        (handle_track_interaction rectW rectW "track1" false true
          ⟨true, false, true, false, some ⟨10, 5⟩⟩ demoApp)).track_selections =
      [("track1",
        min (press_start_abs rectW demoApp ⟨10, 5⟩)
          (release_end_abs rectW demoApp ⟨20, 5⟩ (press_start_abs rectW demoApp ⟨10, 5⟩)),
        max (press_start_abs rectW demoApp ⟨10, 5⟩)
          (release_end_abs rectW demoApp ⟨20, 5⟩ (press_start_abs rectW demoApp ⟨10, 5⟩)))] ∧
    (handle_track_interaction rectW rectW "track1" false true
        ⟨false, true, false, false, some ⟨20, 5⟩⟩
        (handle_track_interaction rectW rectW "track1" false true
          ⟨true, false, true, false, some ⟨10, 5⟩⟩ demoApp)).drag_start_tick = none :=
  (claim_C4_click_vs_drag rectW rectW "track1" false demoApp ⟨10, 5⟩ ⟨20, 5⟩
      (by norm_num [Rect.contains, rectW])).2
    (by norm_num [press_start_abs, release_end_abs, Rect.contains, Rect.width,
      rectW, demoApp, TimelineApp.ticks_per_point, abs])

/-- The demo app with a drag in progress on track1 started at absolute tick 100. -/
def appC8 : TimelineApp := { demoApp with drag_start_tick := some ("track1", 100) }

/-- Counterexample for C8: on a frame where the primary button is released but
the pointer position is unavailable (`interact_pos = None`), the handler
returns the state unchanged, so the DragState survives the release frame —
the claim's "including when ... its position is unavailable" fails. -/
theorem claim_C8_counterexample :
    handle_track_interaction rectW rectW "track1" true true
        ⟨false, true, false, false, none⟩ appC8 = appC8 ∧
    appC8.drag_start_tick = some ("track1", 100) := by
  constructor
  · unfold handle_track_interaction
    simp
  · rfl

/-- Claim C8 as amended: on a release frame whose pointer position is
available and that does not simultaneously report a primary or secondary
press, the interaction pass for the drag-owning track always resolves the
drag — the DragState is cleared and the selections end in a terminal state
(discarded, or committed for exactly this track).  This holds even when the
release happens outside the track or outside the timeline. -/
theorem claim_C8_drag_release_resolved (track_rect timeline_rect : Rect)
    (track_id : String) (hp : Bool) (app : TimelineApp) (p2 : Pos) (sa : ℚ)
    (hdrag : app.drag_start_tick = some (track_id, sa)) :
    (handle_track_interaction track_rect timeline_rect track_id hp true
        ⟨false, true, false, false, some p2⟩ app).drag_start_tick = none ∧
    ((handle_track_interaction track_rect timeline_rect track_id hp true
        ⟨false, true, false, false, some p2⟩ app).track_selections = [] ∨
     (handle_track_interaction track_rect timeline_rect track_id hp true
        ⟨false, true, false, false, some p2⟩ app).track_selections =
       [(track_id, min sa (release_end_abs timeline_rect app p2 sa),
         max sa (release_end_abs timeline_rect app p2 sa))]) := by
  rw [handle_release_eq track_rect timeline_rect track_id hp app p2 sa hdrag]
  constructor
  · split <;> simp
  · split
    · left
      simp
    · right
      simp [selInsert, min_comm, max_comm]

/-- Witness for the amended C8: releasing at x=20 with a drag on track1
resolves the drag on the concrete state. -/
theorem claim_C8_drag_release_resolved_witness :
    (handle_track_interaction rectW rectW "track1" true true
        ⟨false, true, false, false, some ⟨20, 5⟩⟩ appC8).drag_start_tick = none ∧
    ((handle_track_interaction rectW rectW "track1" true true
        ⟨false, true, false, false, some ⟨20, 5⟩⟩ appC8).track_selections = [] ∨
     (handle_track_interaction rectW rectW "track1" true true
        ⟨false, true, false, false, some ⟨20, 5⟩⟩ appC8).track_selections =
       [("track1", min 100 (release_end_abs rectW appC8 ⟨20, 5⟩ 100),
         max 100 (release_end_abs rectW appC8 ⟨20, 5⟩ 100))]) :=
  claim_C8_drag_release_resolved rectW rectW "track1" true appC8 ⟨20, 5⟩ 100 rfl

/-! ### C3: single-selection invariant over arbitrary event sequences -/

/-- One per-frame interaction event: the layout rectangles and capability
flags the widget passes to `handle_track_interaction`, plus the frame's
pointer input.  A sequence of these models any sequence of press / drag /
release / right-click frames over any tracks. -/
structure FrameEvent where
  track_rect : Rect
  timeline_rect : Rect
  track_id : String
  has_playhead : Bool
  has_selection : Bool
  input : PointerInput

/-- Process a sequence of interaction events, one handler call per event. -/
def applyEvents (evs : List FrameEvent) (app : TimelineApp) : TimelineApp :=
  evs.foldl
    (fun a e =>
      handle_track_interaction e.track_rect e.timeline_rect e.track_id
        e.has_playhead e.has_selection e.input a)
    app

/-- The selection-state invariant: at most one stored selection, every stored
selection ordered, and during a drag every stored selection belongs to the
dragged track. -/
def SelInv (app : TimelineApp) : Prop :=
  app.track_selections.length ≤ 1 ∧
  (∀ p ∈ app.track_selections, p.2.1 ≤ p.2.2) ∧
  (∀ t s, app.drag_start_tick = some (t, s) →
    ∀ p ∈ app.track_selections, p.1 = t)

lemma selInv_set_playhead (app : TimelineApp) (t : ℚ) :
    SelInv (app.set_playhead_ticks t) ↔ SelInv app := by
  unfold SelInv
  simp

lemma selInsert_of_all_key (sel : List (String × ℚ × ℚ)) (tid : String)
    (h3 : ∀ p ∈ sel, p.1 = tid) (a b : ℚ) :
    selInsert sel tid a b = [(tid, a, b)] := by
  unfold selInsert
  have hfil : sel.filter (fun p => p.1 ≠ tid) = [] := by
    rw [List.filter_eq_nil_iff]
    intro p hp
    simp [h3 p hp]
  rw [hfil]

/-- `update_selection_drag` preserves the invariant: it either does nothing or
replaces the selections of the dragged track by the single live range. -/
lemma selInv_update (app : TimelineApp) (tid : String) (e : ℚ)
    (hinv : SelInv app) :
    SelInv (app.update_selection_drag tid e) := by
  obtain ⟨h1, h2, h3⟩ := hinv
  cases hdrag : app.drag_start_tick with
  | none =>
    simp only [TimelineApp.update_selection_drag, hdrag]
    exact ⟨h1, h2, h3⟩
  | some ds =>
    obtain ⟨d, s⟩ := ds
    by_cases hd : d = tid
    · subst hd
      have hins := selInsert_of_all_key app.track_selections d (h3 d s hdrag)
        (min s e) (max s e)
      have heq : app.update_selection_drag d e =
          { app with track_selections := [(d, min s e, max s e)] } := by
        simp [TimelineApp.update_selection_drag, hdrag, hins]
      rw [heq]
      refine ⟨by simp, fun p hp => ?_, fun t s' hd' p hp => ?_⟩
      · simp only [List.mem_singleton] at hp
        subst hp
        exact min_le_max
      · rw [hdrag] at hd'
        simp only [Option.some.injEq, Prod.mk.injEq] at hd'
        simp only [List.mem_singleton] at hp
        subst hp
        exact hd'.1
    · simp only [TimelineApp.update_selection_drag, hdrag, if_neg hd]
      exact ⟨h1, h2, h3⟩

/-- Invariance of `SelInv` under equality of the two relevant fields. -/
lemma selInv_congr (a b : TimelineApp)
    (hsel : b.track_selections = a.track_selections)
    (hdrag : b.drag_start_tick = a.drag_start_tick)
    (h : SelInv a) : SelInv b := by
  unfold SelInv at h ⊢
  rw [hsel, hdrag]
  exact h

lemma playhead_if_fields (app : TimelineApp) (c : Bool) (t : ℚ) :
    ((if c = true then app.set_playhead_ticks t else app).track_selections =
        app.track_selections) ∧
    ((if c = true then app.set_playhead_ticks t else app).drag_start_tick =
        app.drag_start_tick) := by
  split <;> simp

/-- Every call of the selection block produces one of six selection effects:
no change, clear all, clear-then-start-drag, live-drag update,
clear-then-end-drag, or commit-then-end-drag with an ordered range. -/
lemma selection_shapes (tid : String) (povt povtl isdrag : Bool)
    (inp : PointerInput) (tick visible : ℚ) (app : TimelineApp) (r : TimelineApp)
    (hr : handle_selection tid povt povtl isdrag inp tick visible app = r) :
    r = app ∨
    r = app.clear_all_selections ∨
    (∃ sa, r = (app.clear_all_selections).start_selection_drag tid sa) ∨
    (∃ e, r = app.update_selection_drag tid e) ∨
    r = (app.clear_all_selections).end_selection_drag ∨
    (∃ mn mx : ℚ, mn ≤ mx ∧ r =
      TimelineApp.end_selection_drag
        ((app.clear_all_selections).set_selection tid mn mx)) := by
  simp only [handle_selection] at hr
  repeat' split at hr
  all_goals
    first
      | exact Or.inl hr.symm
      | exact Or.inr (Or.inl hr.symm)
      | exact Or.inr (Or.inr (Or.inl ⟨_, hr.symm⟩))
      | exact Or.inr (Or.inr (Or.inr (Or.inl ⟨_, hr.symm⟩)))
      | exact Or.inr (Or.inr (Or.inr (Or.inr (Or.inl hr.symm))))
      | exact Or.inr (Or.inr (Or.inr (Or.inr (Or.inr ⟨_, _, min_le_max, hr.symm⟩))))

/-- Every call of `handle_track_interaction` produces one of the six selection
effects on top of the (selection-neutral) playhead update. -/
lemma handle_shapes (tr tlr : Rect) (tid : String) (hp hs : Bool)
    (inp : PointerInput) (app : TimelineApp) (r : TimelineApp)
    (hr : handle_track_interaction tr tlr tid hp hs inp app = r) :
    ∃ base : TimelineApp,
      base.track_selections = app.track_selections ∧
      base.drag_start_tick = app.drag_start_tick ∧
      (r = base ∨
       r = base.clear_all_selections ∨
       (∃ sa, r = (base.clear_all_selections).start_selection_drag tid sa) ∨
       (∃ e, r = base.update_selection_drag tid e) ∨
       r = (base.clear_all_selections).end_selection_drag ∨
       (∃ mn mx : ℚ, mn ≤ mx ∧ r =
          TimelineApp.end_selection_drag
            ((base.clear_all_selections).set_selection tid mn mx))) := by
  unfold handle_track_interaction at hr
  split at hr
  · exact ⟨app, rfl, rfl, Or.inl hr.symm⟩
  · cases hpos : inp.interact_pos with
    | none =>
      simp only [hpos] at hr
      exact ⟨app, rfl, rfl, Or.inl hr.symm⟩
    | some pt =>
      simp only [hpos] at hr
      by_cases hhs : hs = true
      · rw [if_pos hhs] at hr
        exact ⟨_, (playhead_if_fields app _ _).1, (playhead_if_fields app _ _).2,
          selection_shapes _ _ _ _ _ _ _ _ _ hr⟩
      · rw [if_neg hhs] at hr
        exact ⟨_, (playhead_if_fields app _ _).1, (playhead_if_fields app _ _).2,
          Or.inl hr.symm⟩

/-- `handle_track_interaction` preserves the selection invariant, for every
combination of rectangles, track, capabilities and pointer input. -/
lemma selInv_preserved (tr tlr : Rect) (tid : String) (hp hs : Bool)
    (inp : PointerInput) (app : TimelineApp) (hinv : SelInv app) :
    SelInv (handle_track_interaction tr tlr tid hp hs inp app) := by
  obtain ⟨base, hsel, hdrag, hshape⟩ :=
    handle_shapes tr tlr tid hp hs inp app _ rfl
  have hbase : SelInv base := selInv_congr app base hsel hdrag hinv
  rcases hshape with h | h | ⟨sa, h⟩ | ⟨e, h⟩ | h | ⟨mn, mx, hmm, h⟩ <;> rw [h]
  · exact hbase
  · exact ⟨by simp, by simp, by simp⟩
  · exact ⟨by simp, by simp, by simp⟩
  · exact selInv_update base tid e hbase
  · exact ⟨by simp, by simp, by simp⟩
  · refine ⟨by simp [selInsert], ?_, by simp⟩
    intro p hp'
    simp only [end_drag_track_selections, set_selection_track_selections,
      clear_all_track_selections, selInsert, List.filter_nil,
      List.mem_singleton] at hp'
    subst hp'
    exact hmm

/-- After processing any event sequence, the invariant holds. -/
lemma selInv_applyEvents (evs : List FrameEvent) (app : TimelineApp)
    (hinv : SelInv app) : SelInv (applyEvents evs app) := by
  induction evs generalizing app with
  | nil => exact hinv
  | cons e rest ih =>
    exact ih _ (selInv_preserved e.track_rect e.timeline_rect e.track_id
      e.has_playhead e.has_selection e.input app hinv)

lemma selLookup_single (m : List (String × ℚ × ℚ)) (hlen : m.length ≤ 1)
    (k : String) (v : ℚ × ℚ) (h : selLookup m k = some v) : m = [(k, v)] := by
  match m with
  | [] => simp [selLookup] at h
  | p :: rest =>
    have hrest : rest = [] := by
      cases rest with
      | nil => rfl
      | cons q t => simp at hlen
    subst hrest
    unfold selLookup at h
    by_cases hk : (p.1 == k) = true
    · simp only [List.find?, hk, Option.map_some] at h
      have hpk : p.1 = k := beq_iff_eq.mp hk
      cases h
      obtain ⟨a, b⟩ := p
      simp only at hpk
      rw [hpk]
    · rw [Bool.not_eq_true] at hk
      simp [List.find?, hk] at h

/-- Claim C3: starting from a state with no selection and no drag (the demo's
initial state), after any sequence of per-frame interaction events processed
by `handle_track_interaction` — presses, drags, releases, right-clicks, over
any tracks and rectangles — `get_selection` reports at most one selection
across all tracks, and every reported selection satisfies start ≤ end. -/
theorem claim_C3_single_selection (evs : List FrameEvent) (app0 : TimelineApp)
    (h0 : app0.track_selections = [] ∧ app0.drag_start_tick = none) :
    (∀ t1 t2 : String, ∀ v1 v2 : ℚ × ℚ,
      (applyEvents evs app0).get_selection t1 = some v1 →
      (applyEvents evs app0).get_selection t2 = some v2 → t1 = t2) ∧
    (∀ t : String, ∀ v : ℚ × ℚ,
      (applyEvents evs app0).get_selection t = some v → v.1 ≤ v.2) := by
  have hinv0 : SelInv app0 := by
    refine ⟨by simp [h0.1], by simp [h0.1], by simp [h0.1]⟩
  obtain ⟨h1, h2, h3⟩ := selInv_applyEvents evs app0 hinv0
  constructor
  · intro t1 t2 v1 v2 hv1 hv2
    have e1 := selLookup_single _ h1 t1 v1 hv1
    have e2 := selLookup_single _ h1 t2 v2 hv2
    have e3 := e1.symm.trans e2
    simp only [List.cons.injEq, Prod.mk.injEq] at e3
    exact e3.1.1
  · intro t v hv
    have e1 := selLookup_single _ h1 t v hv
    have hmem : (t, v.1, v.2) ∈ (applyEvents evs app0).track_selections := by
      rw [e1]
      simp
    exact h2 (t, v.1, v.2) hmem

/-- Witness for C3: the empty event sequence from the demo's initial state. -/
theorem claim_C3_single_selection_witness :
    (∀ t1 t2 : String, ∀ v1 v2 : ℚ × ℚ,
      (applyEvents [] demoApp).get_selection t1 = some v1 →
      (applyEvents [] demoApp).get_selection t2 = some v2 → t1 = t2) ∧
    (∀ t : String, ∀ v : ℚ × ℚ,
      (applyEvents [] demoApp).get_selection t = some v → v.1 ≤ v.2) :=
  claim_C3_single_selection [] demoApp ⟨rfl, rfl⟩

/-- The maximum `timeline_start` of the bounded 501-bar configuration
(interaction.rs lines 43-45). -/
def scroll_max_start (timeline_rect : Rect) (app : TimelineApp) : ℚ :=
  max (501 * ((app.ticks_per_beat : ℚ) * 4) - app.ticks_per_point * timeline_rect.width) 0

/-- The clamped scroll target computed by `handle_scroll_and_zoom`
(interaction.rs lines 47-55) for horizontal delta `dx` in points. -/
def scroll_new_start (timeline_rect : Rect) (app : TimelineApp) (dx : ℚ) : ℚ :=
  let ns1 := max (app.timeline_start + dx * app.ticks_per_point) 0
  if scroll_max_start timeline_rect app < ns1 then scroll_max_start timeline_rect app
  else ns1

/-- The horizontal delta selected when the zoom modifier is not held:
smooth deltas preferred, raw as fallback (interaction.rs lines 22-28). -/
def scroll_dx (inp : ScrollInput) : ℚ :=
  (if inp.smooth_scroll_delta ≠ (⟨0, 0⟩ : Pos) then inp.smooth_scroll_delta
   else inp.raw_scroll_delta).x

lemma scroll_new_start_nonneg (tlr : Rect) (app : TimelineApp) (dx : ℚ) :
    0 ≤ scroll_new_start tlr app dx := by
  simp only [scroll_new_start, scroll_max_start]
  split
  · exact le_max_right _ _
  · exact le_max_right _ _

lemma scroll_new_start_le (tlr : Rect) (app : TimelineApp) (dx : ℚ) :
    scroll_new_start tlr app dx ≤ scroll_max_start tlr app := by
  simp only [scroll_new_start]
  split
  · exact le_refl _
  · next h => exact not_lt.mp h

/-- A non-zoom scroll frame either leaves the state untouched (and does not
call the mutator), or calls `shift_timeline_start` with exactly
`new_start - current_start` for the clamped target. -/
lemma scroll_result (tlr : Rect) (inp : ScrollInput) (app : TimelineApp)
    (hctrl : inp.ctrl = false) :
    handle_scroll_and_zoom tlr inp app = (app, none) ∨
    handle_scroll_and_zoom tlr inp app =
      (app.shift_timeline_start
        (scroll_new_start tlr app (scroll_dx inp) - app.timeline_start),
       some (scroll_new_start tlr app (scroll_dx inp) - app.timeline_start)) := by
  unfold handle_scroll_and_zoom scroll_new_start scroll_max_start scroll_dx
  rw [hctrl]
  simp only [Bool.false_eq_true, if_false]
  repeat' split
  all_goals first
    | exact Or.inl rfl
    | exact Or.inr rfl

/-- Claim C5 as amended: for a scroll event with the zoom modifier not held,
starting from `timeline_start` inside `[0, max_start]`, the post-event
`timeline_start` stays inside `[0, max_start]`, and whenever the host mutator
`shift_timeline_start` is invoked it receives exactly the applied delta
`new_start - current_start` (never the raw requested delta). -/
theorem claim_C5_scroll_clamp (timeline_rect : Rect) (inp : ScrollInput)
    (app : TimelineApp)
    (hctrl : inp.ctrl = false)
    (h0 : 0 ≤ app.timeline_start)
    (hmax : app.timeline_start ≤ scroll_max_start timeline_rect app) :
    (0 ≤ (handle_scroll_and_zoom timeline_rect inp app).1.timeline_start ∧
     (handle_scroll_and_zoom timeline_rect inp app).1.timeline_start ≤
       scroll_max_start timeline_rect app) ∧
    (∀ d, (handle_scroll_and_zoom timeline_rect inp app).2 = some d →
      d = scroll_new_start timeline_rect app (scroll_dx inp) - app.timeline_start ∧
      (handle_scroll_and_zoom timeline_rect inp app).1.timeline_start =
        app.timeline_start + d) := by
  rcases scroll_result timeline_rect inp app hctrl with h | h <;> rw [h]
  · exact ⟨⟨h0, hmax⟩, by intro d hd; simp at hd⟩
  · have hts : (app.shift_timeline_start
        (scroll_new_start timeline_rect app (scroll_dx inp) -
          app.timeline_start)).timeline_start =
        scroll_new_start timeline_rect app (scroll_dx inp) := by
      simp only [TimelineApp.shift_timeline_start]
      ring_nf
    refine ⟨⟨?_, ?_⟩, ?_⟩
    · rw [hts]
      exact scroll_new_start_nonneg _ _ _
    · rw [hts]
      exact scroll_new_start_le _ _ _
    · intro d hd
      simp only [Option.some.injEq] at hd
      subst hd
      refine ⟨rfl, ?_⟩
      rw [hts]
      ring

/-- A state 1/2000 tick beyond the clamp boundary (reachable because the
0.001-tick dead-band skips small corrections). -/
def appC5 : TimelineApp := { demoApp with timeline_start := 1917840 + 1/2000 }

/-- A plain horizontal scroll event: pointer over the timeline, no modifier,
smooth delta (1, 0). -/
def inpC5 : ScrollInput :=
  { pointer_in_rect := true, ctrl := false, shift := false
    smooth_scroll_delta := ⟨1, 0⟩, raw_scroll_delta := ⟨0, 0⟩ }

/-- Counterexample for C5 as stated: with `timeline_start ≥ 0` but 1/2000
above `max_start`, a scroll event with nonzero delta and no zoom modifier
leaves `timeline_start` strictly above `max_start` (the applied correction
would be 1/2000 ≤ 0.001, so the dead-band suppresses it). -/
theorem claim_C5_counterexample :
    0 ≤ appC5.timeline_start ∧
    (handle_scroll_and_zoom rectW inpC5 appC5).1.timeline_start =
      appC5.timeline_start ∧
    scroll_max_start rectW appC5 <
      (handle_scroll_and_zoom rectW inpC5 appC5).1.timeline_start := by
  refine ⟨by norm_num [appC5, demoApp], ?_, ?_⟩
  · norm_num [handle_scroll_and_zoom, appC5, demoApp, inpC5, rectW, Rect.width,
      TimelineApp.ticks_per_point, TimelineApp.shift_timeline_start, abs]
  · norm_num [handle_scroll_and_zoom, scroll_max_start, appC5, demoApp, inpC5,
      rectW, Rect.width, TimelineApp.ticks_per_point,
      TimelineApp.shift_timeline_start, abs]

/-- Witness for the amended C5: a leftward scroll from the initial state. -/
theorem claim_C5_scroll_clamp_witness :
    (0 ≤ (handle_scroll_and_zoom rectW
        ⟨true, false, false, ⟨-5, 0⟩, ⟨0, 0⟩⟩ demoApp).1.timeline_start ∧
     (handle_scroll_and_zoom rectW
        ⟨true, false, false, ⟨-5, 0⟩, ⟨0, 0⟩⟩ demoApp).1.timeline_start ≤
       scroll_max_start rectW demoApp) ∧
    (∀ d, (handle_scroll_and_zoom rectW
        ⟨true, false, false, ⟨-5, 0⟩, ⟨0, 0⟩⟩ demoApp).2 = some d →
      d = scroll_new_start rectW demoApp
            (scroll_dx ⟨true, false, false, ⟨-5, 0⟩, ⟨0, 0⟩⟩) -
          demoApp.timeline_start ∧
      (handle_scroll_and_zoom rectW
        ⟨true, false, false, ⟨-5, 0⟩, ⟨0, 0⟩⟩ demoApp).1.timeline_start =
        demoApp.timeline_start + d) :=
  claim_C5_scroll_clamp rectW ⟨true, false, false, ⟨-5, 0⟩, ⟨0, 0⟩⟩ demoApp rfl
    (by norm_num [demoApp])
    (by norm_num [demoApp, scroll_max_start, rectW, Rect.width,
      TimelineApp.ticks_per_point])

/-! ### C1: subdivision selection -/

/-- Counterexample for C1 as stated: with `ticks_per_beat = 4`,
`min_step_ticks = 6` and a 4/4 bar of width 16, the initial subdivision
interval `4 / (4/4) = 4` is below the minimum, so the generator steps by the
whole bar — although the whole-bar width 16 is not smaller than the minimum
gap.  The fallback is therefore not "exactly when the whole-bar width is
smaller than the minimum gap". -/
theorem claim_C1_counterexample :
    barStepTicks 4 6 ⟨⟨0, 16⟩, ⟨4, 4⟩⟩ 10 = some (16 - 0) ∧
    ¬((16 : ℚ) - 0 < 6) ∧
    (4 : ℚ) / ((4 / 4 : ℕ) : ℚ) < 6 := by
  refine ⟨?_, by norm_num, by norm_num⟩
  norm_num [barStepTicks, qdivF, fGE, subdivLoopF, fLE]

/-- With `beat_subdivs = 0` (a time-signature denominator below 4, or the
u16 wrap landing on zero), the doubling loop never exits: doubling zero
stays zero mod 2^16, the step stays the infinite quotient, and the exit
test is never satisfied. -/
lemma subdivLoop_zero_subdivs (tpb m : ℚ) :
    ∀ (fuel : ℕ) (st : Option ℚ), subdivLoopF tpb m fuel 0 st = none := by
  intro fuel
  induction fuel with
  | zero => intro st; rfl
  | succ fuel ih =>
    intro st
    rw [subdivLoopF]
    simp only [Nat.zero_mul, Nat.zero_mod, Nat.cast_zero, qdivF, if_pos rfl]
    rw [if_neg (by simp [fLE])]
    exact ih _

/-- What the doubling loop returns, whenever it returns: the subdivision
count is the input times a power of two reduced mod 2^16 (the u16 wrap),
the step still meets the minimum, and one further true halving would not. -/
lemma subdivLoop_spec (tpb m : ℚ) (htpb0 : 0 ≤ tpb) :
    ∀ (fuel s : ℕ) (st : ℚ), 0 < s → s < 65536 → st = tpb / (s : ℚ) → m ≤ st →
    ∀ r, subdivLoopF tpb m fuel s (some st) = some r →
    ∃ (s' : ℕ) (st' : ℚ), r = (s', some st') ∧ m ≤ st' ∧ st' / 2 ≤ m ∧
      ∃ j : ℕ, s' = s * 2 ^ j % 65536 ∧ st' = tpb / (s' : ℚ) := by
  intro fuel
  induction fuel with
  | zero => intro s st _ _ _ _ r hr; exact absurd hr (by simp [subdivLoopF])
  | succ fuel ih =>
    intro s st hs hlt hst hm r hr
    by_cases hw : s * 2 % 65536 = 0
    · rw [subdivLoopF] at hr
      simp only [hw, Nat.cast_zero, qdivF, if_pos rfl] at hr
      rw [if_neg (by simp [fLE])] at hr
      rw [subdivLoop_zero_subdivs] at hr
      exact Option.noConfusion hr
    · have hwpos : 0 < s * 2 % 65536 := Nat.pos_of_ne_zero hw
      have hwq : ((s * 2 % 65536 : ℕ) : ℚ) ≠ 0 := by exact_mod_cast hw
      have hwqpos : (0 : ℚ) < ((s * 2 % 65536 : ℕ) : ℚ) := by
        exact_mod_cast hwpos
      have hfle : (fLE (some (tpb / ((s * 2 % 65536 : ℕ) : ℚ))) m = true) ↔
          tpb / ((s * 2 % 65536 : ℕ) : ℚ) ≤ m := by
        simp only [fLE, decide_eq_true_eq]
      rw [subdivLoopF] at hr
      simp only [qdivF, if_neg hwq] at hr
      by_cases hbreak : tpb / ((s * 2 % 65536 : ℕ) : ℚ) ≤ m
      · rw [if_pos (hfle.mpr hbreak)] at hr
        cases hr
        refine ⟨s, st, rfl, hm, ?_, 0, ?_, by simpa using hst⟩
        · rw [hst, div_div]
          have hle : ((s * 2 % 65536 : ℕ) : ℚ) ≤ (s : ℚ) * 2 := by
            calc ((s * 2 % 65536 : ℕ) : ℚ) ≤ ((s * 2 : ℕ) : ℚ) := by
                  exact_mod_cast Nat.mod_le (s * 2) 65536
              _ = (s : ℚ) * 2 := by push_cast; ring
          calc tpb / ((s : ℚ) * 2) ≤ tpb / ((s * 2 % 65536 : ℕ) : ℚ) := by
                gcongr
            _ ≤ m := hbreak
        · rw [pow_zero, Nat.mul_one, Nat.mod_eq_of_lt hlt]
      · rw [if_neg (fun hc => hbreak (hfle.mp hc))] at hr
        obtain ⟨s', st', hre, hm', hhalf, j, hsj, hstj⟩ :=
          ih (s * 2 % 65536) (tpb / ((s * 2 % 65536 : ℕ) : ℚ)) hwpos
            (Nat.mod_lt _ (by norm_num)) rfl (le_of_lt (not_le.mp hbreak)) r hr
        refine ⟨s', st', hre, hm', hhalf, j + 1, ?_, hstj⟩
        rw [hsj, Nat.mod_mul_mod]
        congr 1
        ring

/-- With `0 < m`, the doubling loop terminates once the fuel covers the
needed doublings, provided all of them happen below the u16 wrap. -/
lemma subdivLoop_term (tpb m : ℚ) :
    ∀ (f s : ℕ) (st : Option ℚ), 0 < s → s * 2 ^ (f + 1) ≤ 65535 →
      tpb ≤ m * (2 * (s : ℚ)) * 2 ^ f →
    ∃ r, subdivLoopF tpb m (f + 1) s st = some r := by
  intro f
  induction f with
  | zero =>
    intro s st hs hwrap hf
    have h2 : s * 2 ≤ 65535 := by
      have he : s * 2 ^ (0 + 1) = s * 2 := by norm_num
      omega
    have hmod : s * 2 % 65536 = s * 2 := Nat.mod_eq_of_lt (by omega)
    have hs2 : ((s * 2 : ℕ) : ℚ) ≠ 0 := by
      have : 0 < s * 2 := by positivity
      exact_mod_cast this.ne.symm
    have hdiv : tpb / ((s * 2 : ℕ) : ℚ) ≤ m := by
      rw [div_le_iff₀ (by positivity)]
      push_cast
      calc tpb ≤ m * (2 * (s : ℚ)) * 2 ^ 0 := hf
        _ = m * ((s : ℚ) * 2) := by ring
    refine ⟨(s, st), ?_⟩
    rw [subdivLoopF, hmod]
    simp only [qdivF, if_neg hs2]
    rw [if_pos (by simp only [fLE, decide_eq_true_eq]; exact hdiv)]
  | succ f ih =>
    intro s st hs hwrap hf
    have h2 : s * 2 ≤ 65535 := by
      have h21 : s * 2 ≤ s * 2 ^ (f + 1 + 1) := by
        have h2p : (2 : ℕ) ≤ 2 ^ (f + 1 + 1) := by
          calc (2 : ℕ) = 2 ^ 1 := rfl
            _ ≤ 2 ^ (f + 1 + 1) := Nat.pow_le_pow_right (by norm_num) (by omega)
        exact Nat.mul_le_mul_left s h2p
      omega
    have hmod : s * 2 % 65536 = s * 2 := Nat.mod_eq_of_lt (by omega)
    have hs2 : ((s * 2 : ℕ) : ℚ) ≠ 0 := by
      have : 0 < s * 2 := by positivity
      exact_mod_cast this.ne.symm
    rw [subdivLoopF, hmod]
    simp only [qdivF, if_neg hs2]
    by_cases hbreak : fLE (some (tpb / ((s * 2 : ℕ) : ℚ))) m = true
    · rw [if_pos hbreak]
      exact ⟨_, rfl⟩
    · rw [if_neg hbreak]
      refine ih (s * 2) _ (by positivity) ?_ ?_
      · have he : s * 2 * 2 ^ (f + 1) = s * 2 ^ (f + 1 + 1) := by ring
        omega
      · calc tpb ≤ m * (2 * (s : ℚ)) * 2 ^ (f + 1) := hf
          _ = m * (2 * ((s * 2 : ℕ) : ℚ)) * 2 ^ f := by push_cast; ring

/-- Between the initial subdivision count and the u16 wrap there is always a
doubling depth whose subdivision count lands in `[2^15, 2^16)`. -/
lemma subdiv_fuel_exists (s0 : ℕ) (hs0 : 0 < s0) (hle : s0 ≤ 16383) :
    ∃ f : ℕ, s0 * 2 ^ (f + 1) ≤ 65535 ∧ 32768 ≤ s0 * 2 ^ (f + 1) := by
  have hL1 : 2 ^ Nat.log2 s0 ≤ s0 := Nat.log2_self_le hs0.ne.symm
  have hL2 : s0 < 2 ^ (Nat.log2 s0 + 1) := Nat.lt_log2_self
  have hL13 : Nat.log2 s0 ≤ 13 := by
    by_contra hgt
    push_neg at hgt
    have h14 : 2 ^ 14 ≤ 2 ^ Nat.log2 s0 := Nat.pow_le_pow_right (by norm_num) hgt
    have h14e : (2 : ℕ) ^ 14 = 16384 := by norm_num
    omega
  have hexp : 14 - Nat.log2 s0 + 1 = 15 - Nat.log2 s0 := by omega
  refine ⟨14 - Nat.log2 s0, ?_, ?_⟩
  · rw [hexp]
    have hlt : s0 * 2 ^ (15 - Nat.log2 s0) <
        2 ^ (Nat.log2 s0 + 1) * 2 ^ (15 - Nat.log2 s0) :=
      mul_lt_mul_of_pos_right hL2 (by positivity)
    have hpow : 2 ^ (Nat.log2 s0 + 1) * 2 ^ (15 - Nat.log2 s0) = 2 ^ 16 := by
      rw [← pow_add]
      congr 1
      omega
    have h216 : (2 : ℕ) ^ 16 = 65536 := by norm_num
    omega
  · rw [hexp]
    have hge : 2 ^ Nat.log2 s0 * 2 ^ (15 - Nat.log2 s0) ≤
        s0 * 2 ^ (15 - Nat.log2 s0) :=
      Nat.mul_le_mul_right _ hL1
    have hpow : 2 ^ Nat.log2 s0 * 2 ^ (15 - Nat.log2 s0) = 2 ^ 15 := by
      rw [← pow_add]
      congr 1
      omega
    have h215 : (2 : ℕ) ^ 15 = 32768 := by norm_num
    omega

/-- Claim C1 as amended: at the first step of each bar the interval starts at
`ticks_per_beat / (denominator / 4)` and the subdivision count is doubled —
in the u16 `beat_subdivs`, so modulo 2^16 — while the halved step stays
strictly above `min_step_ticks`; whenever the loop exits, the selected step
meets the minimum and one further true halving would not, and the count is
the initial one times a power of two reduced mod 2^16.  The generator falls
back to stepping by the whole bar exactly when the *initial* interval
`ticks_per_beat / (denominator / 4)` is below `min_step_ticks` — which can
happen while the whole-bar width still meets the minimum gap.  The loop is
guaranteed to exit when the minimum is reached within the doublings
available before the wrap (`tpb ≤ m * 32768` suffices); past the wrap the
count reaches 0, the step becomes infinite and the loop never exits. -/
theorem claim_C1_subdivision_selection (tpb m : ℚ) (bar : Bar)
    (htpb : 0 < tpb) (hm : 0 < m) (hbottom : 4 ≤ bar.time_sig.bottom)
    (hb16 : bar.time_sig.bottom < 65536) :
    ((tpb / ((bar.time_sig.bottom / 4 : ℕ) : ℚ) < m →
      ∀ fuel, barStepTicks tpb m bar fuel =
        some (bar.tick_range.stop - bar.tick_range.start)) ∧
     (m ≤ tpb / ((bar.time_sig.bottom / 4 : ℕ) : ℚ) →
      ∀ fuel st, barStepTicks tpb m bar fuel = some st →
        m ≤ st ∧ st / 2 ≤ m ∧
        ∃ k : ℕ, st = tpb / (((bar.time_sig.bottom / 4) * 2 ^ k % 65536 : ℕ) : ℚ))) ∧
    (tpb ≤ m * 32768 → m ≤ tpb / ((bar.time_sig.bottom / 4 : ℕ) : ℚ) →
      ∃ fuel st, barStepTicks tpb m bar fuel = some st) := by
  have hs0 : 0 < bar.time_sig.bottom / 4 :=
    Nat.div_pos hbottom (by norm_num)
  have hs0lt : bar.time_sig.bottom / 4 < 65536 :=
    lt_of_le_of_lt (Nat.div_le_self _ _) hb16
  have hs0q : ((bar.time_sig.bottom / 4 : ℕ) : ℚ) ≠ 0 := by
    exact_mod_cast hs0.ne.symm
  refine ⟨⟨?_, ?_⟩, ?_⟩
  · intro hlt fuel
    unfold barStepTicks
    simp only [qdivF, if_neg hs0q]
    rw [if_neg (by simp [fGE, not_le.mpr hlt])]
  · intro hge fuel st hst
    unfold barStepTicks at hst
    simp only [qdivF, if_neg hs0q] at hst
    rw [if_pos (by simp [fGE, hge])] at hst
    cases hloop : subdivLoopF tpb m fuel (bar.time_sig.bottom / 4)
        (some (tpb / ((bar.time_sig.bottom / 4 : ℕ) : ℚ))) with
    | none => rw [hloop] at hst; exact absurd hst (by simp)
    | some r =>
      obtain ⟨s', st', hre, hm', hhalf, j, hsj, hstj⟩ :=
        subdivLoop_spec tpb m htpb.le fuel (bar.time_sig.bottom / 4) _ hs0
          hs0lt rfl hge r hloop
      rw [hloop, hre] at hst
      simp only [Option.some.injEq] at hst
      subst hst
      exact ⟨hm', hhalf, j, by rw [hstj, hsj]⟩
  · intro htpbm hge
    have hs0le : bar.time_sig.bottom / 4 ≤ 16383 := by omega
    obtain ⟨f, hfle, hfge⟩ :=
      subdiv_fuel_exists (bar.time_sig.bottom / 4) hs0 hs0le
    have hbound : tpb ≤ m * (2 * ((bar.time_sig.bottom / 4 : ℕ) : ℚ)) * 2 ^ f := by
      have hc : (32768 : ℚ) ≤
          ((bar.time_sig.bottom / 4 * 2 ^ (f + 1) : ℕ) : ℚ) := by
        exact_mod_cast hfge
      calc tpb ≤ m * 32768 := htpbm
        _ ≤ m * ((bar.time_sig.bottom / 4 * 2 ^ (f + 1) : ℕ) : ℚ) :=
            mul_le_mul_of_nonneg_left hc hm.le
        _ = m * (2 * ((bar.time_sig.bottom / 4 : ℕ) : ℚ)) * 2 ^ f := by
            push_cast
            ring
    obtain ⟨r, hr⟩ := subdivLoop_term tpb m f (bar.time_sig.bottom / 4)
      (some (tpb / ((bar.time_sig.bottom / 4 : ℕ) : ℚ))) hs0 hfle hbound
    obtain ⟨s', st', hre, -, -, -⟩ :=
      subdivLoop_spec tpb m htpb.le (f + 1) (bar.time_sig.bottom / 4) _ hs0
        hs0lt rfl hge r hr
    refine ⟨f + 1, st', ?_⟩
    unfold barStepTicks
    simp only [qdivF, if_neg hs0q]
    rw [if_pos (by simp [fGE, hge]), hr, hre]

/-- Witness for the amended C1 at the demo configuration: `ticks_per_beat =
960`, `min_step_ticks = 240`, one 4/4 bar of width 3840. -/
theorem claim_C1_subdivision_selection_witness :
    (((960 : ℚ) / (((⟨⟨0, 3840⟩, ⟨4, 4⟩⟩ : Bar).time_sig.bottom / 4 : ℕ) : ℚ) < 240 →
      ∀ fuel, barStepTicks 960 240 ⟨⟨0, 3840⟩, ⟨4, 4⟩⟩ fuel =
        some ((⟨⟨0, 3840⟩, ⟨4, 4⟩⟩ : Bar).tick_range.stop -
          (⟨⟨0, 3840⟩, ⟨4, 4⟩⟩ : Bar).tick_range.start)) ∧
     ((240 : ℚ) ≤ 960 / (((⟨⟨0, 3840⟩, ⟨4, 4⟩⟩ : Bar).time_sig.bottom / 4 : ℕ) : ℚ) →
      ∀ fuel st, barStepTicks 960 240 ⟨⟨0, 3840⟩, ⟨4, 4⟩⟩ fuel = some st →
        240 ≤ st ∧ st / 2 ≤ 240 ∧
        ∃ k : ℕ, st = 960 /
          ((((⟨⟨0, 3840⟩, ⟨4, 4⟩⟩ : Bar).time_sig.bottom / 4) * 2 ^ k % 65536 : ℕ) : ℚ))) ∧
    ((960 : ℚ) ≤ 240 * 32768 →
      (240 : ℚ) ≤ 960 / (((⟨⟨0, 3840⟩, ⟨4, 4⟩⟩ : Bar).time_sig.bottom / 4 : ℕ) : ℚ) →
      ∃ fuel st, barStepTicks 960 240 ⟨⟨0, 3840⟩, ⟨4, 4⟩⟩ fuel = some st) :=
  claim_C1_subdivision_selection 960 240 ⟨⟨0, 3840⟩, ⟨4, 4⟩⟩
    (by norm_num) (by norm_num) (by norm_num) (by norm_num)

/-! ### C6: time-based ruler and grid mark suppression -/

/-- A host whose five bars fit in two points: `ticks_per_second = 16` while one
point spans 8 ticks, so successive whole-second marks are 2 px apart. -/
def infoC6 : MusicalInfoModel :=
  { ticks_per_beat := 4, ticks_per_point := 8
    bar_at_ticks := fun _ => ⟨⟨0, 16⟩, ⟨4, 4⟩⟩, timeline_start := some 0 }

/-- Counterexample for C6 as stated: in `paint_grid` the too-close check runs
before the whole-second classification, so the whole-second mark at second
1.0 (relative tick 16, x = 2, within the visible range) is suppressed — only
the mark at x = 0 is drawn.  "Whole-second marks are never suppressed" fails
for the grid. -/
theorem claim_C6_counterexample :
    paint_grid infoC6 0 2 12 = [(0, true)] ∧
    (16 : ℚ) ≤ infoC6.ticks_per_point * 2 ∧
    |rem1 ((0 + 16 : ℚ) / ((infoC6.ticks_per_beat : ℚ) * 4))| < 1/1000 ∧
    ∀ p ∈ paint_grid infoC6 0 2 12, p.1 ≠ 0 + 16 / infoC6.ticks_per_point := by
  have h1 : paint_grid infoC6 0 2 12 = [(0, true)] := by
    norm_num [paint_grid, gridLinesF, infoC6, rem1, truncQ, abs, MIN_STEP_GAP]
  refine ⟨h1, by norm_num [infoC6], by norm_num [infoC6, rem1, truncQ, abs], ?_⟩
  rw [h1]
  intro p hp
  simp only [List.mem_singleton] at hp
  subst hp
  norm_num [infoC6]

/-- In the ruler's time-based loop, every whole-second line position reached
by the walk within the visible range is drawn, whatever the suppression
state. -/
lemma rulerLines_whole_mem (tpp tps tpl visible left ts : ℚ) (htpl : 0 ≤ tpl) :
    ∀ (fuel : ℕ) (current : ℚ) (last : Option ℚ) (q : ℚ),
      (∃ j : ℕ, j < fuel ∧ q = current + j * tpl) → q ≤ visible →
      |rem1 ((ts + q) / tps)| < 1/1000 →
      (left + q / tpp, true) ∈ rulerLinesF tpp tps tpl visible left ts fuel current last := by
  intro fuel
  induction fuel with
  | zero =>
    rintro _ _ _ ⟨j, hj, _⟩ _ _
    omega
  | succ fuel ih =>
    rintro current last q ⟨j, hj, hq⟩ hqv hwhole
    have hjq : (0 : ℚ) ≤ j * tpl := by positivity
    have hcv : current ≤ visible := by
      have hcq : current ≤ q := by rw [hq]; linarith
      linarith
    simp only [rulerLinesF]
    rw [if_neg (not_lt.mpr hcv)]
    cases j with
    | zero =>
      simp only [Nat.cast_zero, zero_mul, add_zero] at hq
      rw [hq] at hwhole ⊢
      have hw : decide (|rem1 ((ts + current) / tps)| < 1/1000) = true :=
        decide_eq_true hwhole
      simp only [hw, Bool.true_or]
      exact List.mem_cons_self _ _
    | succ j =>
      have hq' : q = (current + tpl) + j * tpl := by
        rw [hq]
        push_cast
        ring
      split
      · exact List.mem_cons_of_mem _
          (ih (current + tpl) _ q ⟨j, by omega, hq'⟩ hqv hwhole)
      · exact ih (current + tpl) _ q ⟨j, by omega, hq'⟩ hqv hwhole

/-- Claim C6 as amended: in the ruler's time-based mode a mark is suppressed
exactly when it is not a whole-second mark and its x position is closer than
`MIN_STEP_GAP` to the previous drawn mark (whole-second marks are never
suppressed, so every whole-second line within the visible range is drawn);
in `paint_grid`, by contrast, the distance test runs first, so any mark —
whole-second or not — closer than `MIN_STEP_GAP` to the previous drawn mark
is suppressed. -/
theorem claim_C6_time_grid_suppression (tpp tps tpl visible left ts : ℚ) :
    (0 ≤ tpl →
      ∀ (fuel : ℕ) (current : ℚ) (last : Option ℚ) (q : ℚ),
        (∃ j : ℕ, j < fuel ∧ q = current + j * tpl) → q ≤ visible →
        |rem1 ((ts + q) / tps)| < 1/1000 →
        (left + q / tpp, true) ∈
          rulerLinesF tpp tps tpl visible left ts fuel current last) ∧
    (∀ (fuel : ℕ) (current : ℚ) (lx : ℚ), current ≤ visible →
      ¬(|rem1 ((ts + current) / tps)| < 1/1000) →
      |left + current / tpp - lx| < MIN_STEP_GAP →
      rulerLinesF tpp tps tpl visible left ts (fuel + 1) current (some lx) =
        rulerLinesF tpp tps tpl visible left ts fuel (current + tpl) (some lx)) ∧
    (∀ (fuel : ℕ) (current : ℚ) (lx : ℚ), current ≤ visible →
      ¬(|left + current / tpp - lx| < MIN_STEP_GAP) →
      rulerLinesF tpp tps tpl visible left ts (fuel + 1) current (some lx) =
        (left + current / tpp, decide (|rem1 ((ts + current) / tps)| < 1/1000)) ::
          rulerLinesF tpp tps tpl visible left ts fuel (current + tpl)
            (some (left + current / tpp))) ∧
    (∀ (fuel : ℕ) (current : ℚ) (lx : ℚ), current ≤ visible →
      |left + current / tpp - lx| < MIN_STEP_GAP →
      gridLinesF tpp tps tpl visible left ts (fuel + 1) current (some lx) =
        gridLinesF tpp tps tpl visible left ts fuel (current + tpl) (some lx)) := by
  refine ⟨rulerLines_whole_mem tpp tps tpl visible left ts, ?_, ?_, ?_⟩
  · intro fuel current lx hcv hnw hclose
    simp only [rulerLinesF]
    rw [if_neg (not_lt.mpr hcv)]
    simp only [decide_eq_false hnw, decide_eq_true hclose]
    simp
  · intro fuel current lx hcv hfar
    simp only [rulerLinesF]
    rw [if_neg (not_lt.mpr hcv)]
    simp only [decide_eq_false hfar]
    simp
  · intro fuel current lx hcv hclose
    simp only [gridLinesF]
    rw [if_neg (not_lt.mpr hcv)]
    simp only [decide_eq_true hclose]
    simp

/-- Witness for C6 at the concrete zoomed-out host: the whole-second ruler
mark at second 1.0 (x = 2) is drawn even though all intermediate marks are
suppressed. -/
theorem claim_C6_time_grid_suppression_witness :
    ((0 : ℚ) + 16 / 8, true) ∈ rulerLinesF 8 16 (16/10) 16 0 0 12 0 none :=
  (claim_C6_time_grid_suppression 8 16 (16/10) 16 0 0).1 (by norm_num) 12 0 none 16
    ⟨10, by norm_num, by norm_num⟩ (by norm_num)
    (by norm_num [rem1, truncQ, abs])

/-! ### C9: missing divide-by-zero guards -/

/-- With `min_step_ticks = 0` and positive `ticks_per_beat`, the doubling loop
never meets its exit condition (`new_step_ticks ≤ 0` is false for every
positive step, and for the infinite step after the u16 wrap lands on zero),
so it spins forever: `none` at every fuel. -/
lemma subdivLoop_zero_min_none (tpb : ℚ) (htpb : 0 < tpb) :
    ∀ (fuel s : ℕ) (st : Option ℚ),
      subdivLoopF tpb 0 fuel s st = none := by
  intro fuel
  induction fuel with
  | zero => intro s st; rfl
  | succ fuel ih =>
    intro s st
    rw [subdivLoopF]
    by_cases hw : s * 2 % 65536 = 0
    · simp only [hw, Nat.cast_zero, qdivF, if_pos rfl]
      rw [if_neg (by simp [fLE])]
      exact ih _ _
    · have hwq : ((s * 2 % 65536 : ℕ) : ℚ) ≠ 0 := by exact_mod_cast hw
      have hpos : 0 < tpb / ((s * 2 % 65536 : ℕ) : ℚ) := by
        have h0 : (0 : ℚ) < ((s * 2 % 65536 : ℕ) : ℚ) := by
          exact_mod_cast Nat.pos_of_ne_zero hw
        positivity
      simp only [qdivF, if_neg hwq]
      rw [if_neg (by simp only [fLE, decide_eq_true_eq]; exact not_le.mpr hpos)]
      exact ih _ _

lemma barStep_zero_min_none : ∀ f, barStepTicks 960 0 ⟨⟨0, 3840⟩, ⟨4, 4⟩⟩ f = none := by
  intro f
  unfold barStepTicks
  norm_num [qdivF, fGE]
  rw [subdivLoop_zero_min_none 960 (by norm_num) f 1 (some 960)]

/-- The demo host at `zoom_level = 0`, making `ticks_per_point` zero. -/
def appC9 : TimelineApp := { demoApp with zoom_level := 0 }

/-- Claim C9 is what the code *should* do; what it actually does: with
`ticks_per_point = 0` the derived `min_step_ticks` is 0 and `Steps::next`
never returns — the subdivision loop runs forever (in f32, `beat_subdivs`
doublings overflow the u16 to 0 and the step becomes `+inf`, which never
satisfies the `<= 0` exit; debug builds panic on the overflow).  There is no
guard; the generator neither emits "no visible steps" nor skips drawing. -/
theorem claim_C9_divide_by_zero_diverges :
    appC9.ticks_per_point = 0 ∧
    (Steps.new appC9.musicalInfo 100 MIN_STEP_GAP).min_step_ticks = 0 ∧
    ∀ fuel, Steps.nextF appC9.musicalInfo fuel
      (Steps.new appC9.musicalInfo 100 MIN_STEP_GAP) = none := by
  have hnew : Steps.new appC9.musicalInfo 100 MIN_STEP_GAP =
      { ticks_per_beat := 960, ticks_per_point := 0, visible_ticks := 0
        min_step_ticks := 0, index_in_bar := 0, step_ticks := 0
        bar := ⟨⟨0, 3840⟩, ⟨4, 4⟩⟩, ticks := 0 } := by
    norm_num [Steps.new, appC9, demoApp, TimelineApp.musicalInfo,
      TimelineApp.ticks_per_point, TimelineApp.bar_at_ticks,
      TimelineApp.ticks_per_bar, TOTAL_BARS, Steps.mk.injEq, Bar.mk.injEq,
      TickRange.mk.injEq, TimeSig.mk.injEq]
  refine ⟨by norm_num [appC9, demoApp, TimelineApp.ticks_per_point], ?_, ?_⟩
  · rw [hnew]
  · intro fuel
    cases fuel with
    | zero => rfl
    | succ f =>
      rw [hnew]
      simp [Steps.nextF, barStep_zero_min_none]

/-! ### C2: step spacing and bar boundaries -/

/-- Relations that hold whenever `Steps::next` emits a step: the successor
state's index is one past the step's, its tick cursor sits one step interval
past the emitted tick, the emitted tick is non-negative, within the bar and
the visible range, `x` is the tick over `ticks_per_point`, and an
`index_in_bar = 0` step always sits exactly at its bar's start. -/
lemma nextF_emit_rel (api : MusicalInfoModel) :
    ∀ (f : ℕ) (s : Steps) (a : Step) (s1 : Steps),
      Steps.nextF api f s = some (some a, s1) →
      s1.index_in_bar = a.index_in_bar + 1 ∧
      s1.ticks = a.ticks + s1.step_ticks ∧
      0 ≤ a.ticks ∧
      a.x = a.ticks / s1.ticks_per_point ∧
      a.ticks < s1.bar.tick_range.stop ∧
      a.ticks ≤ s1.visible_ticks ∧
      (a.index_in_bar = 0 → a.ticks = s1.bar.tick_range.start) := by
  intro f
  induction f with
  | zero =>
    intro s a s1 h
    exact absurd h (by simp [Steps.nextF])
  | succ f ih =>
    intro s a s1 h
    simp only [Steps.nextF] at h
    split at h
    · exact Option.noConfusion h
    · next s1' heq =>
      split at h
      · exact absurd h (by simp)
      · split at h
        · exact ih _ _ _ h
        · split at h
          · exact ih _ _ _ h
          · next hneg =>
            rename_i hvis hstop
            simp only [Option.some.injEq, Prod.mk.injEq] at h
            obtain ⟨ha, hs1⟩ := h
            subst ha
            subst hs1
            refine ⟨rfl, rfl, not_lt.mp hneg, rfl, not_le.mp hstop,
              not_lt.mp hvis, ?_⟩
            intro hidx0
            split at heq
            · next hidx =>
              split at heq
              · exact Option.noConfusion heq
              · next st hsel =>
                simp only [Option.some.injEq] at heq
                subst heq
                rfl
            · next hidx =>
              simp only [Option.some.injEq] at heq
              subst heq
              simp only at hidx0
              exact absurd hidx0 hidx

/-- A call on a fresh-bar state (index 0) whose selection succeeds and whose
bar starts inside `[0, visible]` emits the bar's first step. -/
lemma nextF_fresh_bar (api : MusicalInfoModel) (fuel : ℕ) (s : Steps) (st : ℚ)
    (hidx : s.index_in_bar = 0)
    (hsel : barStepTicks s.ticks_per_beat s.min_step_ticks s.bar (fuel + 1) = some st)
    (h0 : 0 ≤ s.bar.tick_range.start)
    (hvis : s.bar.tick_range.start ≤ s.visible_ticks)
    (hw : s.bar.tick_range.start < s.bar.tick_range.stop) :
    Steps.nextF api (fuel + 1) s =
      some (some (⟨0, s.bar.tick_range.start,
          s.bar.tick_range.start / s.ticks_per_point⟩ : Step),
        { s with ticks := s.bar.tick_range.start + st, step_ticks := st
                 index_in_bar := 0 + 1 }) := by
  simp only [Steps.nextF, if_pos hidx, hsel]
  rw [if_neg (not_lt.mpr hvis), if_neg (not_le.mpr hw), if_neg (not_lt.mpr h0)]
  rw [hidx]

/-- Claim C2: (1) when a step has just been emitted and the next tick is
still inside the same bar and the visible range, and the current interval is
a non-fallback selection (`min_step_ticks ≤ step_ticks`, the claim's
whole-bar-fallback exception) with a positive step, the next call emits the
consecutive step with strictly increasing `x` and `Δx ≥ min_step_gap`;
(2) when the tick cursor reaches the bar end inside the visible range, the
next call emits exactly the new bar's first step with `index_in_bar = 0` at
the new bar's start; (3) a step with `index_in_bar = 0` is only ever emitted
at its bar's start — so index-0 steps occur exactly once per bar boundary
crossed. -/
theorem claim_C2_step_spacing (api : MusicalInfoModel) (gap : ℚ) :
    (∀ (f : ℕ) (s : Steps) (a : Step) (s1 : Steps),
      Steps.nextF api f s = some (some a, s1) →
      s1.min_step_ticks ≤ s1.step_ticks →
      0 < s1.step_ticks →
      s1.ticks < s1.bar.tick_range.stop →
      s1.ticks ≤ s1.visible_ticks →
      s1.min_step_ticks = s1.ticks_per_point * gap →
      0 < s1.ticks_per_point →
      ∀ f', ∃ (b : Step) (s2 : Steps),
        Steps.nextF api (f' + 1) s1 = some (some b, s2) ∧
        b.index_in_bar = a.index_in_bar + 1 ∧
        a.x < b.x ∧ gap ≤ b.x - a.x) ∧
    (∀ (fsel : ℕ) (s : Steps) (st : ℚ),
      1 ≤ s.index_in_bar →
      s.bar.tick_range.stop ≤ s.ticks →
      s.ticks ≤ s.visible_ticks →
      barStepTicks s.ticks_per_beat s.min_step_ticks
        (api.bar_at_ticks (s.bar.tick_range.stop + 1/2)) (fsel + 1) = some st →
      0 ≤ (api.bar_at_ticks (s.bar.tick_range.stop + 1/2)).tick_range.start →
      (api.bar_at_ticks (s.bar.tick_range.stop + 1/2)).tick_range.start ≤
        s.visible_ticks →
      (api.bar_at_ticks (s.bar.tick_range.stop + 1/2)).tick_range.start <
        (api.bar_at_ticks (s.bar.tick_range.stop + 1/2)).tick_range.stop →
      ∃ s2, Steps.nextF api (fsel + 1 + 1) s =
        some (some (⟨0, (api.bar_at_ticks (s.bar.tick_range.stop + 1/2)).tick_range.start,
          (api.bar_at_ticks (s.bar.tick_range.stop + 1/2)).tick_range.start /
            s.ticks_per_point⟩ : Step), s2)) ∧
    (∀ (f : ℕ) (s : Steps) (a : Step) (s1 : Steps),
      Steps.nextF api f s = some (some a, s1) →
      a.index_in_bar = 0 → a.ticks = s1.bar.tick_range.start) := by
  refine ⟨?_, ?_, ?_⟩
  · intro f s a s1 h hstep hpos hbar hvis hmin htpp f'
    obtain ⟨r1, r2, r3, r4, -, -, -⟩ := nextF_emit_rel api f s a s1 h
    have hidx : ¬(s1.index_in_bar = 0) := by
      rw [r1]
      exact Nat.succ_ne_zero _
    have hnneg : ¬(s1.ticks < 0) := by
      rw [r2]
      push_neg
      linarith
    have hcomp : Steps.nextF api (f' + 1) s1 =
        some (some { index_in_bar := s1.index_in_bar, ticks := s1.ticks
                     x := s1.ticks / s1.ticks_per_point },
              { s1 with index_in_bar := s1.index_in_bar + 1
                        ticks := s1.ticks + s1.step_ticks }) := by
      simp only [Steps.nextF, if_neg hidx]
      rw [if_neg (not_lt.mpr hvis), if_neg (not_le.mpr hbar), if_neg hnneg]
    refine ⟨_, _, hcomp, ?_, ?_, ?_⟩
    · exact r1
    · rw [r4, r2]
      rw [div_lt_div_iff_of_pos_right htpp]
      linarith
    · rw [r4, r2]
      rw [div_sub_div_same]
      have : a.ticks + s1.step_ticks - a.ticks = s1.step_ticks := by ring
      rw [this]
      rw [le_div_iff htpp]
      calc gap * s1.ticks_per_point = s1.ticks_per_point * gap := by ring
        _ = s1.min_step_ticks := hmin.symm
        _ ≤ s1.step_ticks := hstep
  · intro fsel s st hidx hstop hvis hsel hnb0 hnbvis hnbw
    have hidx' : ¬(s.index_in_bar = 0) := by omega
    have hfirst : Steps.nextF api (fsel + 1 + 1) s = Steps.nextF api (fsel + 1)
        { s with index_in_bar := 0
                 bar := api.bar_at_ticks (s.bar.tick_range.stop + 1/2) } := by
      simp only [Steps.nextF, if_neg hidx']
      rw [if_neg (not_lt.mpr hvis), if_pos hstop]
    rw [hfirst]
    rw [nextF_fresh_bar api fsel _ st rfl hsel hnb0 hnbvis hnbw]
    exact ⟨_, rfl⟩
  · intro f s a s1 h
    exact (nextF_emit_rel api f s a s1 h).2.2.2.2.2.2

/-- The demo iterator state, freshly created for a 100-point-wide view. -/
def stepsC2 : Steps := Steps.new demoApp.musicalInfo 100 MIN_STEP_GAP

/-- The state after the demo iterator's first emission (step 0 at tick 0,
selected interval 480 = half a beat, 8 px at 60 ticks per point). -/
def stepsC2' : Steps :=
  { ticks_per_beat := 960, ticks_per_point := 60, visible_ticks := 6000
    min_step_ticks := 240, index_in_bar := 1, step_ticks := 480
    bar := ⟨⟨0, 3840⟩, ⟨4, 4⟩⟩, ticks := 480 }

/-- Witness for C2, part 1, at the demo configuration: after the first step
(⟨0, 0, 0⟩) the next call emits step 1 with x strictly larger and the gap at
least `MIN_STEP_GAP = 4` points. -/
theorem claim_C2_step_spacing_witness :
    ∃ (b : Step) (s2 : Steps),
      Steps.nextF demoApp.musicalInfo (0 + 1) stepsC2' = some (some b, s2) ∧
      b.index_in_bar = (⟨0, 0, 0⟩ : Step).index_in_bar + 1 ∧
      (⟨0, 0, 0⟩ : Step).x < b.x ∧ (4 : ℚ) ≤ b.x - (⟨0, 0, 0⟩ : Step).x :=
  (claim_C2_step_spacing demoApp.musicalInfo 4).1 2 stepsC2 ⟨0, 0, 0⟩ stepsC2'
    (by norm_num [Steps.nextF, stepsC2, stepsC2', Steps.new, barStepTicks,
      subdivLoopF, qdivF, fGE, fLE, demoApp, TimelineApp.musicalInfo,
      TimelineApp.bar_at_ticks, TimelineApp.ticks_per_bar,
      TimelineApp.ticks_per_point, TOTAL_BARS, MIN_STEP_GAP, Steps.mk.injEq,
      Step.mk.injEq, Bar.mk.injEq, TickRange.mk.injEq, TimeSig.mk.injEq])
    (by norm_num [stepsC2']) (by norm_num [stepsC2']) (by norm_num [stepsC2'])
    (by norm_num [stepsC2']) (by norm_num [stepsC2']) (by norm_num [stepsC2']) 0

/-! ### C10: termination of `Steps::next` -/

/-- The sequence of bars the iterator requests: each next bar is
`bar_at_ticks` of the previous bar's end plus half a tick. -/
def barChain (api : MusicalInfoModel) (b : Bar) : ℕ → Bar
  | 0 => b
  | n + 1 => api.bar_at_ticks ((barChain api b n).tick_range.stop + 1/2)

/-- Selection always terminates when the minimum is positive,
`ticks_per_beat` is positive and bounded by `32768 * min` (so the exit is
reached before the u16 wrap), and the denominator is a u16 of at least 4;
the selected interval either meets the minimum or is the whole-bar
fallback. -/
lemma barStep_term (tpb m : ℚ) (bar : Bar)
    (hm : 0 < m) (htpb : 0 < tpb) (hbottom : 4 ≤ bar.time_sig.bottom)
    (hb16 : bar.time_sig.bottom < 65536) (htpbm : tpb ≤ m * 32768) :
    ∃ (g : ℕ) (st : ℚ), barStepTicks tpb m bar (g + 1) = some st ∧
      (m ≤ st ∨ st = bar.tick_range.stop - bar.tick_range.start) := by
  have hs0 : 0 < bar.time_sig.bottom / 4 := Nat.div_pos hbottom (by norm_num)
  have hs0lt : bar.time_sig.bottom / 4 < 65536 :=
    lt_of_le_of_lt (Nat.div_le_self _ _) hb16
  have hs0q : ((bar.time_sig.bottom / 4 : ℕ) : ℚ) ≠ 0 := by
    exact_mod_cast hs0.ne.symm
  by_cases hinit : tpb / ((bar.time_sig.bottom / 4 : ℕ) : ℚ) < m
  · refine ⟨0, bar.tick_range.stop - bar.tick_range.start, ?_, Or.inr rfl⟩
    unfold barStepTicks
    simp only [qdivF, if_neg hs0q]
    rw [if_neg (by simp [fGE, not_le.mpr hinit])]
  · push_neg at hinit
    have hs0le : bar.time_sig.bottom / 4 ≤ 16383 := by omega
    obtain ⟨f, hfle, hfge⟩ :=
      subdiv_fuel_exists (bar.time_sig.bottom / 4) hs0 hs0le
    have hbound : tpb ≤ m * (2 * ((bar.time_sig.bottom / 4 : ℕ) : ℚ)) * 2 ^ f := by
      have hc : (32768 : ℚ) ≤
          ((bar.time_sig.bottom / 4 * 2 ^ (f + 1) : ℕ) : ℚ) := by
        exact_mod_cast hfge
      calc tpb ≤ m * 32768 := htpbm
        _ ≤ m * ((bar.time_sig.bottom / 4 * 2 ^ (f + 1) : ℕ) : ℚ) :=
            mul_le_mul_of_nonneg_left hc hm.le
        _ = m * (2 * ((bar.time_sig.bottom / 4 : ℕ) : ℚ)) * 2 ^ f := by
            push_cast
            ring
    obtain ⟨r, hr⟩ := subdivLoop_term tpb m f (bar.time_sig.bottom / 4)
      (some (tpb / ((bar.time_sig.bottom / 4 : ℕ) : ℚ))) hs0 hfle hbound
    obtain ⟨s', st', hre, hm', -, -⟩ :=
      subdivLoop_spec tpb m htpb.le (f + 1) (bar.time_sig.bottom / 4) _ hs0
        hs0lt rfl hinit r hr
    refine ⟨f, st', ?_, Or.inl hm'⟩
    unfold barStepTicks
    simp only [qdivF, if_neg hs0q]
    rw [if_pos (by simp [fGE, hinit]), hr, hre]

/-- Unfolding of one `Steps::next` entry at a mid-bar state (no interval
re-selection). -/
lemma nextF_succ_pos_index (api : MusicalInfoModel) (f : ℕ) (s : Steps)
    (h : ¬ s.index_in_bar = 0) :
    Steps.nextF api (f + 1) s =
      (if s.visible_ticks < s.ticks then some (none, s)
       else if s.bar.tick_range.stop ≤ s.ticks then
        Steps.nextF api f { s with index_in_bar := 0
                                   bar := api.bar_at_ticks
                                     (s.bar.tick_range.stop + 1/2) }
       else if s.ticks < 0 then
        Steps.nextF api f { s with index_in_bar := s.index_in_bar + 1
                                   ticks := s.ticks + s.step_ticks }
       else some (some ⟨s.index_in_bar, s.ticks, s.ticks / s.ticks_per_point⟩,
        { s with index_in_bar := s.index_in_bar + 1
                 ticks := s.ticks + s.step_ticks })) := by
  simp only [Steps.nextF, if_neg h]

/-- Within one bar, the `'ticks` loop finishes: from any mid-bar state with a
positive interval, a finite fuel makes `Steps::next` return, provided every
fresh entry into the following bar also returns (hypothesis `Hout`, only
needed when the bar end is inside the visible range). -/
lemma nextF_inner_term (api : MusicalInfoModel) (tpb tpp v m : ℚ) (b : Bar)
    (Hout : b.tick_range.stop ≤ v → ∀ (t st2 : ℚ), ∃ f,
      Steps.nextF api f
        ⟨tpb, tpp, v, m, 0, st2,
          api.bar_at_ticks (b.tick_range.stop + 1/2), t⟩ ≠ none) :
    ∀ (k idx : ℕ) (t st : ℚ), 1 ≤ idx → 0 < st →
      b.tick_range.stop - t ≤ (k : ℚ) * st →
      ∃ f, Steps.nextF api f ⟨tpb, tpp, v, m, idx, st, b, t⟩ ≠ none := by
  intro k
  induction k with
  | zero =>
    intro idx t st hidx hst hbound
    have hstop : b.tick_range.stop ≤ t := by
      push_cast at hbound
      linarith
    by_cases hv : v < t
    · refine ⟨1, ?_⟩
      rw [nextF_succ_pos_index api 0 _ (by simp; omega)]
      simp only [if_pos hv]
      exact fun hc => Option.noConfusion hc
    · obtain ⟨f, hf⟩ := Hout (le_trans hstop (not_lt.mp hv)) t st
      refine ⟨f + 1, ?_⟩
      rw [nextF_succ_pos_index api f _ (by simp; omega)]
      simp only [if_neg hv, if_pos hstop]
      exact hf
  | succ k ih =>
    intro idx t st hidx hst hbound
    by_cases hv : v < t
    · refine ⟨1, ?_⟩
      rw [nextF_succ_pos_index api 0 _ (by simp; omega)]
      simp only [if_pos hv]
      exact fun hc => Option.noConfusion hc
    · by_cases hstop : b.tick_range.stop ≤ t
      · obtain ⟨f, hf⟩ := Hout (le_trans hstop (not_lt.mp hv)) t st
        refine ⟨f + 1, ?_⟩
        rw [nextF_succ_pos_index api f _ (by simp; omega)]
        simp only [if_neg hv, if_pos hstop]
        exact hf
      · by_cases hneg : t < 0
        · obtain ⟨f, hf⟩ := ih (idx + 1) (t + st) st (by omega) hst
            (by push_cast at hbound ⊢; linarith)
          refine ⟨f + 1, ?_⟩
          rw [nextF_succ_pos_index api f _ (by simp; omega)]
          simp only [if_neg hv, if_neg hstop, if_pos hneg]
          exact hf
        · refine ⟨1, ?_⟩
          rw [nextF_succ_pos_index api 0 _ (by simp; omega)]
          simp only [if_neg hv, if_neg hstop, if_neg hneg]
          exact fun hc => Option.noConfusion hc

/-- Fuel is monotone for the doubling loop: a result obtained with some fuel
is preserved by more fuel. -/
lemma subdivLoop_mono (tpb m : ℚ) :
    ∀ (f s : ℕ) (st : Option ℚ) (r), subdivLoopF tpb m f s st = some r →
      subdivLoopF tpb m (f + 1) s st = some r := by
  intro f
  induction f with
  | zero => intro s st r hr; exact absurd hr (by simp [subdivLoopF])
  | succ f ih =>
    intro s st r hr
    simp only [subdivLoopF] at hr ⊢
    by_cases hb : fLE (qdivF tpb ((s * 2 % 65536 : ℕ) : ℚ)) m = true
    · rw [if_pos hb] at hr ⊢; exact hr
    · rw [if_neg hb] at hr ⊢; exact ih _ _ _ hr

/-- `subdivLoop_mono`, iterated to an arbitrary larger fuel. -/
lemma subdivLoop_mono_le (tpb m : ℚ) (f f' : ℕ) (h : f ≤ f') (s : ℕ)
    (st : Option ℚ) (r) (hr : subdivLoopF tpb m f s st = some r) :
    subdivLoopF tpb m f' s st = some r := by
  obtain ⟨k, rfl⟩ := Nat.exists_eq_add_of_le h
  clear h
  induction k with
  | zero => exact hr
  | succ k ih => exact subdivLoop_mono tpb m (f + k) s st r ih

/-- Fuel is monotone for step-interval selection. -/
lemma barStep_mono (tpb m : ℚ) (bar : Bar) (f f' : ℕ) (h : f ≤ f') (st : ℚ)
    (hr : barStepTicks tpb m bar f = some st) :
    barStepTicks tpb m bar f' = some st := by
  simp only [barStepTicks] at hr ⊢
  by_cases hge : fGE (qdivF tpb ((bar.time_sig.bottom / 4 : ℕ) : ℚ)) m = true
  · rw [if_pos hge] at hr ⊢
    cases hsub : subdivLoopF tpb m f (bar.time_sig.bottom / 4)
        (qdivF tpb ((bar.time_sig.bottom / 4 : ℕ) : ℚ)) with
    | none => rw [hsub] at hr; exact absurd hr (by simp)
    | some p =>
      rw [hsub] at hr
      rw [subdivLoop_mono_le tpb m f f' h _ _ p hsub]
      exact hr
  · rw [if_neg hge] at hr ⊢; exact hr

/-- Fuel is monotone for `Steps::next`: a returned value is preserved by more
fuel. -/
lemma nextF_mono (api : MusicalInfoModel) :
    ∀ (f : ℕ) (s : Steps) (r), Steps.nextF api f s = some r →
      Steps.nextF api (f + 1) s = some r := by
  intro f
  induction f with
  | zero => intro s r hr; exact absurd hr (by simp [Steps.nextF])
  | succ f ih =>
    intro s r hr
    by_cases hidx : s.index_in_bar = 0
    · cases hsub : barStepTicks s.ticks_per_beat s.min_step_ticks s.bar (f + 1) with
      | none =>
        simp only [Steps.nextF, if_pos hidx, hsub] at hr
        exact absurd hr (by simp)
      | some st =>
        have hsub' : barStepTicks s.ticks_per_beat s.min_step_ticks s.bar
            (f + 1 + 1) = some st :=
          barStep_mono _ _ _ (f + 1) (f + 1 + 1) (by omega) st hsub
        simp only [Steps.nextF, if_pos hidx, hsub] at hr
        simp only [Steps.nextF, if_pos hidx, hsub']
        by_cases hv : s.visible_ticks < s.bar.tick_range.start
        · rw [if_pos hv] at hr ⊢; exact hr
        · rw [if_neg hv] at hr ⊢
          by_cases hstop : s.bar.tick_range.stop ≤ s.bar.tick_range.start
          · rw [if_pos hstop] at hr ⊢; exact ih _ _ hr
          · rw [if_neg hstop] at hr ⊢
            by_cases hneg : s.bar.tick_range.start < 0
            · rw [if_pos hneg] at hr ⊢; exact ih _ _ hr
            · rw [if_neg hneg] at hr ⊢; exact hr
    · rw [nextF_succ_pos_index api f s hidx] at hr
      rw [nextF_succ_pos_index api (f + 1) s hidx]
      by_cases hv : s.visible_ticks < s.ticks
      · rw [if_pos hv] at hr ⊢; exact hr
      · rw [if_neg hv] at hr ⊢
        by_cases hstop : s.bar.tick_range.stop ≤ s.ticks
        · rw [if_pos hstop] at hr ⊢; exact ih _ _ hr
        · rw [if_neg hstop] at hr ⊢
          by_cases hneg : s.ticks < 0
          · rw [if_pos hneg] at hr ⊢; exact ih _ _ hr
          · rw [if_neg hneg] at hr ⊢; exact hr

/-- `nextF_mono`, iterated to an arbitrary larger fuel. -/
lemma nextF_mono_le (api : MusicalInfoModel) (f f' : ℕ) (h : f ≤ f')
    (s : Steps) (r) (hr : Steps.nextF api f s = some r) :
    Steps.nextF api f' s = some r := by
  obtain ⟨k, rfl⟩ := Nat.exists_eq_add_of_le h
  clear h
  induction k with
  | zero => exact hr
  | succ k ih => exact nextF_mono api (f + k) s r ih

/-- A fresh entry into a well-formed bar returns within finite fuel, provided
every fresh entry into the following bar does (hypothesis `Hout`, only needed
when this bar's end lies inside the visible range). -/
lemma nextF_outer_step (api : MusicalInfoModel) (tpp tpb v m : ℚ) (bar : Bar)
    (hm : 0 < m) (htpb : 0 < tpb) (hbottom : 4 ≤ bar.time_sig.bottom)
    (hb16 : bar.time_sig.bottom < 65536) (htpbm : tpb ≤ m * 32768)
    (Hout : bar.tick_range.stop ≤ v → ∀ (t st2 : ℚ), ∃ f,
      Steps.nextF api f
        ⟨tpb, tpp, v, m, 0, st2,
          api.bar_at_ticks (bar.tick_range.stop + 1/2), t⟩ ≠ none) :
    ∀ (t st2 : ℚ), ∃ f,
      Steps.nextF api f ⟨tpb, tpp, v, m, 0, st2, bar, t⟩ ≠ none := by
  intro t st2
  obtain ⟨g, st, hsel, hstm⟩ :=
    barStep_term tpb m bar hm htpb hbottom hb16 htpbm
  have hidx : (⟨tpb, tpp, v, m, 0, st2, bar, t⟩ : Steps).index_in_bar = 0 := rfl
  by_cases hv : v < bar.tick_range.start
  · refine ⟨g + 1, ?_⟩
    simp only [Steps.nextF, if_pos hidx, hsel, eq_self_iff_true, if_true]
    rw [if_pos hv]
    simp
  · push_neg at hv
    by_cases hstop : bar.tick_range.stop ≤ bar.tick_range.start
    · obtain ⟨f, hf⟩ := Hout (le_trans hstop hv) bar.tick_range.start st
      cases hfe : Steps.nextF api f
          ⟨tpb, tpp, v, m, 0, st,
            api.bar_at_ticks (bar.tick_range.stop + 1/2),
            bar.tick_range.start⟩ with
      | none => exact absurd hfe hf
      | some r =>
        have hfe' := nextF_mono_le api f (g + f) (by omega) _ r hfe
        have hsel' := barStep_mono tpb m bar (g + 1) (g + f + 1) (by omega) st hsel
        refine ⟨g + f + 1, ?_⟩
        simp only [Steps.nextF, if_pos hidx, hsel', eq_self_iff_true, if_true]
        rw [if_neg (not_lt.mpr hv), if_pos hstop, hfe']
        simp
    · push_neg at hstop
      have hstpos : 0 < st := by
        rcases hstm with h | h
        · exact lt_of_lt_of_le hm h
        · rw [h]; linarith
      by_cases hneg : bar.tick_range.start < 0
      · obtain ⟨k, hk⟩ := exists_nat_ge
          ((bar.tick_range.stop - (bar.tick_range.start + st)) / st)
        have hbound : bar.tick_range.stop - (bar.tick_range.start + st) ≤
            (k : ℚ) * st := by
          rw [div_le_iff₀ hstpos] at hk
          linarith
        obtain ⟨fin, hfin⟩ := nextF_inner_term api tpb tpp v m bar Hout k (0 + 1)
          (bar.tick_range.start + st) st (by omega) hstpos hbound
        cases hfe : Steps.nextF api fin
            ⟨tpb, tpp, v, m, 0 + 1, st, bar, bar.tick_range.start + st⟩ with
        | none => exact absurd hfe hfin
        | some r =>
          have hfe' := nextF_mono_le api fin (g + fin) (by omega) _ r hfe
          have hsel' := barStep_mono tpb m bar (g + 1) (g + fin + 1) (by omega)
            st hsel
          refine ⟨g + fin + 1, ?_⟩
          simp only [Steps.nextF, if_pos hidx, hsel', eq_self_iff_true, if_true]
          rw [if_neg (not_lt.mpr hv), if_neg (not_le.mpr hstop), if_pos hneg,
            hfe']
          simp
      · push_neg at hneg
        refine ⟨g + 1, ?_⟩
        rw [nextF_fresh_bar api g ⟨tpb, tpp, v, m, 0, st2, bar, t⟩ st hidx hsel
          hneg hv hstop]
        simp

/-- Termination across the bar chain: with `N` bars to the end of the visible
range, a fresh entry into chain bar `n` with `N ≤ n + r` returns within
finite fuel, by induction on the remaining bar budget `r`. -/
lemma nextF_outer (api : MusicalInfoModel) (tpp tpb v m : ℚ) (b0 : Bar)
    (hm : 0 < m) (htpb : 0 < tpb) (htpbm : tpb ≤ m * 32768)
    (hbars : ∀ n, 4 ≤ (barChain api b0 n).time_sig.bottom ∧
      (barChain api b0 n).time_sig.bottom < 65536)
    (N : ℕ)
    (hesc : ∀ n, N ≤ n → v < (barChain api b0 n).tick_range.stop) :
    ∀ (r n : ℕ), N ≤ n + r → ∀ (t st2 : ℚ),
      ∃ f, Steps.nextF api f ⟨tpb, tpp, v, m, 0, st2, barChain api b0 n, t⟩ ≠
        none := by
  intro r
  induction r with
  | zero =>
    intro n hn t st2
    refine nextF_outer_step api tpp tpb v m (barChain api b0 n) hm htpb
      (hbars n).1 (hbars n).2 htpbm ?_ t st2
    intro habs
    exact absurd habs (not_le.mpr (hesc n (by omega)))
  | succ r ih =>
    intro n hn t st2
    refine nextF_outer_step api tpp tpb v m (barChain api b0 n) hm htpb
      (hbars n).1 (hbars n).2 htpbm ?_ t st2
    intro _ t' st'
    exact ih (n + 1) (by omega) t' st'

/-- A musical-info source whose bars carry the time signature 1/1.  Both
fields are positive, so the documented `TimeSig` invariant holds, yet
`beat_subdivs = bottom / 4 = 0`. -/
def badSigApi : MusicalInfoModel :=
  { ticks_per_beat := 960
    ticks_per_point := 60
    bar_at_ticks := fun _ => ⟨⟨0, 3840⟩, ⟨1, 1⟩⟩
    timeline_start := none }

/-- Against `badSigApi`, the very first `Steps::next` call never returns:
the subdivision-doubling loop runs forever. -/
lemma badSig_nextF_none :
    ∀ fuel, Steps.nextF badSigApi fuel (Steps.new badSigApi 100 4) = none := by
  intro fuel
  cases fuel with
  | zero => rfl
  | succ f =>
    have hsub : barStepTicks ((960 : ℕ) : ℚ) (60 * 4) ⟨⟨0, 3840⟩, ⟨1, 1⟩⟩
        (f + 1) = none := by
      unfold barStepTicks
      norm_num [qdivF, fGE, subdivLoop_zero_subdivs]
    simp only [Steps.nextF, Steps.new, badSigApi, if_pos rfl, hsub,
      eq_self_iff_true, if_true]

/-- Claim C10 as amended: `Steps::next` terminates — some fuel makes the
fuelled model return — for any state whose bar chain has u16 time-signature
denominators ≥ 4 and strictly increasing bar ends (with the visible range
ending before some chain bar's end, which over machine floats follows from
strict increase), given `min_step_ticks > 0`, `ticks_per_beat > 0`, a start
state either at a bar entry or mid-bar with a positive interval, AND
`ticks_per_beat ≤ 32768 * min_step_ticks`, so that the subdivision loop
exits within the doublings available before the u16 `beat_subdivs` wrap —
without this extra bound the claimed preconditions are insufficient (see
the counterexample).  And the documented `TimeSig` invariant (both fields
positive) alone is not sufficient either: with time signature 1/1,
`beat_subdivs = bottom / 4 = 0` and the very first call loops forever. -/
theorem claim_C10_termination :
    (∀ (api : MusicalInfoModel) (s : Steps),
      0 < s.min_step_ticks → 0 < s.ticks_per_beat →
      s.ticks_per_beat ≤ s.min_step_ticks * 32768 →
      (∀ n, 4 ≤ (barChain api s.bar n).time_sig.bottom ∧
        (barChain api s.bar n).time_sig.bottom < 65536) →
      (∀ n, (barChain api s.bar n).tick_range.stop <
        (barChain api s.bar (n + 1)).tick_range.stop) →
      (∃ N, s.visible_ticks < (barChain api s.bar N).tick_range.stop) →
      (s.index_in_bar = 0 ∨ 0 < s.step_ticks) →
      ∃ fuel, Steps.nextF api fuel s ≠ none) ∧
    (0 < (badSigApi.bar_at_ticks 0).time_sig.top ∧
     0 < (badSigApi.bar_at_ticks 0).time_sig.bottom ∧
     ∀ fuel, Steps.nextF badSigApi fuel (Steps.new badSigApi 100 4) = none) := by
  constructor
  · intro api s hm htpb htpbm hbars hmono hN hstart
    obtain ⟨N, hNlt⟩ := hN
    have hstep : ∀ a k, (barChain api s.bar a).tick_range.stop ≤
        (barChain api s.bar (a + k)).tick_range.stop := by
      intro a k
      induction k with
      | zero => exact le_refl _
      | succ k ih => exact le_trans ih (le_of_lt (hmono (a + k)))
    have hesc : ∀ n, N ≤ n → s.visible_ticks <
        (barChain api s.bar n).tick_range.stop := by
      intro n hn
      have h2 := hstep N (n - N)
      rw [show N + (n - N) = n from by omega] at h2
      exact lt_of_lt_of_le hNlt h2
    obtain ⟨tpb, tpp, v, m, idx, st, b, t⟩ := s
    by_cases hidx : idx = 0
    · subst hidx
      exact nextF_outer api tpp tpb v m b hm htpb htpbm hbars N hesc N 0
        (by omega) t st
    · have hstpos : 0 < st := by
        rcases hstart with h | h
        · exact absurd h hidx
        · exact h
      obtain ⟨k, hk⟩ := exists_nat_ge ((b.tick_range.stop - t) / st)
      have hbound : b.tick_range.stop - t ≤ (k : ℚ) * st := by
        rw [div_le_iff₀ hstpos] at hk
        linarith
      refine nextF_inner_term api tpb tpp v m b ?_ k idx t st (by omega) hstpos
        hbound
      intro _ t' st'
      exact nextF_outer api tpp tpb v m b hm htpb htpbm hbars N hesc N 1
        (by omega) t' st'
  · exact ⟨by norm_num [badSigApi], by norm_num [badSigApi], badSig_nextF_none⟩

/-- A musical-info source with unbounded 4/4 bars of 3840 ticks, aligned on
multiples of 3840. -/
def linApi : MusicalInfoModel :=
  { ticks_per_beat := 960
    ticks_per_point := 60
    bar_at_ticks := fun q =>
      ⟨⟨3840 * ((⌊q / 3840⌋ : ℤ) : ℚ), 3840 * (((⌊q / 3840⌋ : ℤ) : ℚ) + 1)⟩,
        ⟨4, 4⟩⟩
    timeline_start := none }

/-- The bar chain of `linApi` from the initial iterator state: bar `n` spans
`[3840 n, 3840 (n+1))`. -/
lemma linChain_new :
    ∀ n, barChain linApi (Steps.new linApi 100 4).bar n =
      ⟨⟨3840 * (n : ℚ), 3840 * ((n : ℚ) + 1)⟩, ⟨4, 4⟩⟩ := by
  intro n
  induction n with
  | zero =>
    show linApi.bar_at_ticks 0 = _
    simp only [linApi]
    norm_num
  | succ n ih =>
    rw [barChain, ih]
    simp only [linApi]
    have hq : (3840 * ((n : ℚ) + 1) + 1/2) / 3840 = (n : ℚ) + 1 + 1/7680 := by
      ring
    have hfl : (⌊(3840 * ((n : ℚ) + 1) + 1/2) / 3840⌋ : ℤ) = (n : ℤ) + 1 := by
      rw [hq, Int.floor_eq_iff]
      constructor
      · push_cast; norm_num
      · push_cast; norm_num
    rw [hfl]
    push_cast
    norm_num

/-- A musical-info source identical to `linApi` except for a huge
`ticks_per_beat` (2^31, a valid u32) and `ticks_per_point = 1`: reaching
`min_step_ticks = 4` would need about 29 doublings, but the u16
`beat_subdivs` wraps to 0 after 15. -/
def wrapApi : MusicalInfoModel :=
  { linApi with ticks_per_beat := 2147483648, ticks_per_point := 1 }

/-- The bar chain of `wrapApi` from the initial iterator state: bar `n`
spans `[3840 n, 3840 (n+1))`. -/
lemma wrapChain_new :
    ∀ n, barChain wrapApi (Steps.new wrapApi 100 4).bar n =
      ⟨⟨3840 * (n : ℚ), 3840 * ((n : ℚ) + 1)⟩, ⟨4, 4⟩⟩ := by
  intro n
  induction n with
  | zero =>
    show wrapApi.bar_at_ticks 0 = _
    simp only [wrapApi, linApi]
    norm_num
  | succ n ih =>
    rw [barChain, ih]
    simp only [wrapApi, linApi]
    have hq : (3840 * ((n : ℚ) + 1) + 1/2) / 3840 = (n : ℚ) + 1 + 1/7680 := by
      ring
    have hfl : (⌊(3840 * ((n : ℚ) + 1) + 1/2) / 3840⌋ : ℤ) = (n : ℤ) + 1 := by
      rw [hq, Int.floor_eq_iff]
      constructor
      · push_cast; norm_num
      · push_cast; norm_num
    rw [hfl]
    push_cast
    norm_num

/-- Against `wrapApi` the doubling loop never exits from any pre-wrap
power-of-two subdivision count: the step stays far above the minimum until
the count wraps to 0, after which the step is infinite forever. -/
lemma wrap_subdivLoop_none :
    ∀ (fuel k : ℕ), k ≤ 15 → ∀ st : Option ℚ,
      subdivLoopF 2147483648 4 fuel (2 ^ k) st = none := by
  intro fuel
  induction fuel with
  | zero => intro k hk st; rfl
  | succ fuel ih =>
    intro k hk st
    rw [subdivLoopF]
    by_cases hk15 : k = 15
    · subst hk15
      have hmod : 2 ^ 15 * 2 % 65536 = 0 := by norm_num
      rw [hmod]
      simp only [Nat.cast_zero, qdivF, if_pos rfl]
      rw [if_neg (by simp [fLE])]
      exact subdivLoop_zero_subdivs _ _ _ _
    · have hpow : 2 ^ k * 2 = 2 ^ (k + 1) := by rw [pow_succ]
      have hlt : 2 ^ (k + 1) < 65536 := by
        calc 2 ^ (k + 1) ≤ 2 ^ 15 := Nat.pow_le_pow_right (by norm_num) (by omega)
          _ < 65536 := by norm_num
      have hmod : 2 ^ k * 2 % 65536 = 2 ^ (k + 1) := by
        rw [hpow]
        exact Nat.mod_eq_of_lt hlt
      rw [hmod]
      have hne : ((2 ^ (k + 1) : ℕ) : ℚ) ≠ 0 := by positivity
      simp only [qdivF, if_neg hne]
      have hflef : fLE (some ((2147483648 : ℚ) / ((2 ^ (k + 1) : ℕ) : ℚ))) 4 =
          false := by
        simp only [fLE, decide_eq_false_iff_not, not_le]
        have hle32 : ((2 ^ (k + 1) : ℕ) : ℚ) ≤ 32768 := by
          exact_mod_cast
            (calc (2 : ℕ) ^ (k + 1) ≤ 2 ^ 15 :=
                  Nat.pow_le_pow_right (by norm_num) (by omega)
              _ = 32768 := by norm_num)
        calc (4 : ℚ) < 2147483648 / 32768 := by norm_num
          _ ≤ 2147483648 / ((2 ^ (k + 1) : ℕ) : ℚ) := by gcongr <;> positivity
      rw [if_neg (fun hc => by rw [hflef] at hc; exact Bool.noConfusion hc)]
      exact ih (k + 1) (by omega) _

/-- Against `wrapApi`, step-interval selection never returns. -/
lemma wrap_barStep_none :
    ∀ fuel, barStepTicks 2147483648 4 ⟨⟨0, 3840⟩, ⟨4, 4⟩⟩ fuel = none := by
  intro fuel
  have h := wrap_subdivLoop_none fuel 0 (by norm_num)
    (some ((2147483648 : ℚ) / ((1 : ℕ) : ℚ)))
  norm_num at h
  unfold barStepTicks
  norm_num [qdivF, fGE]
  rw [h]

/-- Against `wrapApi` the very first `Steps::next` call never returns. -/
lemma wrap_nextF_none :
    ∀ fuel, Steps.nextF wrapApi fuel (Steps.new wrapApi 100 4) = none := by
  intro fuel
  cases fuel with
  | zero => rfl
  | succ f =>
    have hnew : Steps.new wrapApi 100 4 =
        ⟨2147483648, 1, 100, 4, 0, 0, ⟨⟨0, 3840⟩, ⟨4, 4⟩⟩, 0⟩ := by
      norm_num [Steps.new, wrapApi, linApi, Steps.mk.injEq, Bar.mk.injEq,
        TickRange.mk.injEq, TimeSig.mk.injEq]
    rw [hnew]
    have hsel := wrap_barStep_none (f + 1)
    simp only [Steps.nextF, if_pos rfl, hsel, eq_self_iff_true, if_true]

/-- Counterexample for C10 as stated: `wrapApi` satisfies every claimed
precondition — positive `min_step_ticks` and `ticks_per_beat`, all chain
bars 4/4 (denominator ≥ 4, a valid u16), strictly increasing bar ends
passing the visible range — yet `Steps::next` never returns: reaching the
minimum would need more doublings than the u16 `beat_subdivs` affords, so
the counter wraps to 0 and the loop spins forever. -/
theorem claim_C10_counterexample :
    (0 < (Steps.new wrapApi 100 4).min_step_ticks ∧
     0 < (Steps.new wrapApi 100 4).ticks_per_beat ∧
     (∀ n, 4 ≤ (barChain wrapApi (Steps.new wrapApi 100 4).bar n).time_sig.bottom) ∧
     (∀ n, (barChain wrapApi (Steps.new wrapApi 100 4).bar n).tick_range.stop <
       (barChain wrapApi (Steps.new wrapApi 100 4).bar (n + 1)).tick_range.stop) ∧
     (∃ N, (Steps.new wrapApi 100 4).visible_ticks <
       (barChain wrapApi (Steps.new wrapApi 100 4).bar N).tick_range.stop) ∧
     (Steps.new wrapApi 100 4).index_in_bar = 0) ∧
    ∀ fuel, Steps.nextF wrapApi fuel (Steps.new wrapApi 100 4) = none := by
  refine ⟨⟨?_, ?_, ?_, ?_, ?_, rfl⟩, wrap_nextF_none⟩
  · norm_num [Steps.new, wrapApi, linApi]
  · norm_num [Steps.new, wrapApi, linApi]
  · intro n
    rw [wrapChain_new n]
  · intro n
    rw [wrapChain_new n, wrapChain_new (n + 1)]
    push_cast
    norm_num
  · refine ⟨0, ?_⟩
    rw [wrapChain_new 0]
    norm_num [Steps.new, wrapApi, linApi]

/-- Witness for C10: against `linApi`, the freshly constructed iterator's
first `next` call terminates. -/
theorem claim_C10_termination_witness :
    ∃ fuel, Steps.nextF linApi fuel (Steps.new linApi 100 4) ≠ none :=
  claim_C10_termination.1 linApi (Steps.new linApi 100 4)
    (by norm_num [Steps.new, linApi])
    (by norm_num [Steps.new, linApi])
    (by norm_num [Steps.new, linApi])
    (fun n => by rw [linChain_new n]; norm_num)
    (fun n => by
      rw [linChain_new n, linChain_new (n + 1)]
      push_cast
      norm_num)
    ⟨1, by
      rw [linChain_new 1]
      norm_num [Steps.new, linApi]⟩
    (Or.inl rfl)

end EguiTimeline
